import Mathlib

/-!
Verification of the E-score pipeline (`src/calc_E_score.py`).

The script loads one tabular summary-statistics file per trait, derives an
inflation weight per trait from the mean chi-square statistic, inner-joins all
traits on the variant-identifier column via `functools.reduce` over
`pd.merge`, accumulates the weighted sum of `-log10(max(P, 1e-300))` per
variant, and emits the rows sorted by descending score.

The embedding below models a tabular file as a `Frame` (named columns over
cells that are either strings or numeric values, with `none` standing for a
missing value / NaN), Python exceptions and `sys.exit(1)` as an `Except Err`
result, float arithmetic as real arithmetic, and `scipy.stats.chi2.isf` as
the mathematical inverse survival function of the chi-square distribution
with one degree of freedom (the gamma distribution with shape 1/2, rate 1/2).
-/

namespace CalcEScore

/-- Cell of a data frame: a string (variant identifiers) or a numeric value,
with `none` standing for a missing value (NaN). -/
inductive Val where
  | str : String → Val
  | num : Option ℚ → Val
deriving DecidableEq, Repr

/-- Coerce a cell to a number the way numeric numpy/pandas operations see it;
a non-numeric cell behaves like a missing value here. -/
def Val.toNum : Val → Option ℚ
  | .num q => q
  | .str _ => none

/-- Join-key equality used by `pd.merge`: pandas factorizes the key column
and matches missing keys (NaN) with each other, so the join relation is
plain cell equality. -/
def Val.joinEq (a b : Val) : Bool := a == b

/-- Whether a cell is numeric. After `read_csv`, a column gets a numeric
(float) dtype exactly when every cell parses as a number (missing cells
become NaN and stay numeric); one unparsable cell makes the whole column
object dtype. -/
def numCell : Val → Bool
  | .num _ => true
  | .str _ => false

/-- A loaded tabular file: the path it came from, its `Path(filepath).stem`,
its column labels and its rows (each row listing one cell per column). -/
structure Frame where
  path : String
  stem : String
  cols : List String
  rows : List (List Val)
deriving DecidableEq, Repr

/-- Index of a column label (first occurrence), as pandas label lookup. -/
def Frame.colIdx (f : Frame) (c : String) : Option Nat :=
  f.cols.findIdx? (· = c)

/-- Values of the column labelled `c`, when present. -/
def Frame.getCol (f : Frame) (c : String) : Option (List Val) :=
  (f.colIdx c).map fun i => f.rows.map fun r => r.getD i (.num none)

/-- The variant-identifier column of a frame (empty when the column is absent). -/
def Frame.idCol (f : Frame) (snp : String) : List Val :=
  (f.getCol snp).getD []

/-- Whether the column labelled `c` has a numeric (float) dtype: every cell
is numeric. The dtype belongs to the column and travels with it through
projection, rename and merge, whether or not individual rows survive a
join. -/
def Frame.numColB (f : Frame) (c : String) : Bool :=
  ((f.getCol c).getD []).all numCell

/-- Errors of the run: a Python exception or an explicit `sys.exit(1)`.
`schemaError` models the loader raising `ValueError(f"Column .. not found
in ..")` (line 78) and exiting; `keyError` models a pandas `KeyError` on
missing labels; `typeError` models a Python `TypeError`; `degenerateWeights`
models the explicit exit when the total weight denominator is zero
(lines 134-136). -/
inductive Err where
  | schemaError (file col : String)
  | keyError (keys : List String)
  | typeError (msg : String)
  | degenerateWeights
deriving DecidableEq, Repr

/-- Which file, if any, an error message names. -/
def Err.namesFile : Err → Option String
  | .schemaError file _ => some file
  | _ => none

/-- Which columns, if any, an error message names. -/
def Err.namesCols : Err → List String
  | .schemaError _ col => [col]
  | .keyError ks => ks
  | _ => []

/-- Mean of a list of values skipping missing entries, as `Series.mean()`
with its default `skipna=True`; the mean of no values is NaN. -/
noncomputable def skipnaMean (xs : List (Option ℝ)) : Option ℝ :=
  match xs.reduceOption with
  | [] => none
  | y :: ys => some ((y :: ys).sum / (y :: ys).length)

/-- Survival function of the chi-square distribution with one degree of
freedom, which is the gamma distribution with shape 1/2 and rate 1/2:
`P(X > c)`. -/
noncomputable def chiSqSurvival (c : ℝ) : ℝ :=
  (ProbabilityTheory.gammaMeasure (1/2) (1/2) (Set.Ioi c)).toReal

/-- Inverse survival function of the chi-square distribution with one degree
of freedom, modelling `scipy.stats.chi2.isf(p, 1)` (line 84) on the domain
(0, 1], where the scipy function is real-valued: the least nonnegative `c`
with `P(X > c) ≤ p`. Outside that domain scipy returns `inf` (at 0) or
`nan`, which this real-valued embedding cannot represent, so every theorem
about the derived chi-square restricts its P-value argument to (0, 1]. -/
noncomputable def chiSqISF (p : ℝ) : ℝ :=
  sInf {c : ℝ | 0 ≤ c ∧ chiSqSurvival c ≤ p}

/-- Python `max(0, x)` where `x` may be NaN: `max` keeps the first argument
when the comparison with NaN is false, so a NaN mean yields weight 0. -/
noncomputable def pymax0 : Option ℝ → ℝ
  | none => 0
  | some x => max 0 x

/-- The per-record chi-square column the mean is taken over (lines 81-84):
the `CHI2` column when the file supplies one, otherwise each record's
P-value pushed through `chi2.isf(., 1)`. -/
noncomputable def chi2Col (f : Frame) (p_col : String) : List (Option ℝ) :=
  if "CHI2" ∈ f.cols then
    ((f.getCol "CHI2").getD []).map (fun v => (Val.toNum v).map (fun q => (q : ℝ)))
  else
    ((f.getCol p_col).getD []).map (fun v => (Val.toNum v).map (fun q => chiSqISF (q : ℝ)))

/-- The mean chi-square inflation `df['CHI2'].mean()` (line 87). -/
noncomputable def meanChi2 (f : Frame) (p_col : String) : Option ℝ :=
  skipnaMean (chi2Col f p_col)

/-- The weight numerator `max(0, mean_chi2 - 1)` (line 91). -/
noncomputable def weightNumerator (f : Frame) (p_col : String) : ℝ :=
  pymax0 ((fun m => m - 1) <$> meanChi2 f p_col)

/-- Whether the column the mean chi-square is taken over is numeric: the
supplied `CHI2` column when present, the P-value column otherwise. When it
is not (object dtype), `Series.mean()` respectively `chi2.isf` raises
inside the loader, whose handler prints the file path and exits 1. -/
def Frame.chi2ColNumeric (f : Frame) (p_col : String) : Bool :=
  if "CHI2" ∈ f.cols then f.numColB "CHI2" else f.numColB p_col

/-- The loader `load_and_calculate_weight` (lines 65-100): checks that the
P-value column exists, derives the `CHI2` column via the inverse survival
function when absent (the derived column is consumed only by the mean, since
line 122 immediately projects the frame to the identifier and P columns),
takes the skipna mean, and returns the trait name (the file stem), the frame
and the weight numerator `max(0, mean_chi2 - 1)`. A missing P-value column
raises `ValueError` naming the file and the column; a non-numeric
(object-dtype) chi-square source column makes `chi2.isf` respectively
`Series.mean` raise. Either exception hits the handler of lines 98-100,
which prints a message naming the file and calls `sys.exit(1)`. -/
noncomputable def load_and_calculate_weight (f : Frame) (p_col : String) :
    Except Err (String × Frame × ℝ) :=
  if p_col ∈ f.cols then
    if f.chi2ColNumeric p_col then
      .ok (f.stem, f, weightNumerator f p_col)
    else .error (.typeError f.path)
  else .error (.schemaError f.path p_col)

/-- Cell of a row under the label `c`, resolved against the column list of
`f` the way pandas label lookup resolves it (first matching label). -/
def Frame.cellAt (f : Frame) (c : String) (r : List Val) : Val :=
  r.getD ((f.cols.findIdx? (· = c)).getD 0) (.num none)

/-- Column projection `df[[c, ...]]` (line 122): keeps the listed columns in
the listed order; any missing label raises a pandas `KeyError` naming the
missing labels. -/
def Frame.project (f : Frame) (cs : List String) : Except Err Frame :=
  let missing := cs.filter (fun c => !(f.cols.contains c))
  if missing = [] then
    .ok { f with
          cols := cs
          rows := f.rows.map fun r => cs.map fun c => f.cellAt c r }
  else .error (.keyError missing)

/-- Column rename (line 125): every column labelled `old` becomes `new`. -/
def Frame.renameCol (f : Frame) (old new : String) : Frame :=
  { f with cols := f.cols.map fun c => if c = old then new else c }

/-- One element of `loaded_data` (lines 127-131): the dict
`{'name': trait_name, 'df': df, 'weight_score': w_num}`. -/
structure Entry where
  name : String
  df : Frame
  weight_score : ℝ

/-- The loading loop (lines 118-132): load each file, project to the
identifier and P columns, and rename the P column to `P_<trait>`. Any
failure aborts the run at that file. -/
noncomputable def loadAll (p_col snp_col : String) : List Frame → Except Err (List Entry)
  | [] => .ok []
  | f :: fs => do
      let (name, df0, w) ← load_and_calculate_weight f p_col
      let dfP ← df0.project [snp_col, p_col]
      let df1 := dfP.renameCol p_col ("P_" ++ name)
      let rest ← loadAll p_col snp_col fs
      .ok ({ name := name, df := df1, weight_score := w } :: rest)

/-- The running total of weight numerators (lines 116, 132). -/
noncomputable def totalWeightDenom (items : List Entry) : ℝ :=
  (items.map (·.weight_score)).sum

/-- Inner merge `pd.merge(l, r, on=k)` (line 145): overlapping non-key
labels get the `_x`/`_y` suffixes; each left row is paired, in order, with
every right row whose key matches; a frame without the key raises
`KeyError`. -/
def pdMerge (l r : Frame) (k : String) : Except Err Frame :=
  match l.colIdx k, r.colIdx k with
  | some li, some ri =>
      let lcols := l.cols.map fun c => if c ≠ k ∧ c ∈ r.cols then c ++ "_x" else c
      let keep := (List.range r.cols.length).filter (· ≠ ri)
      let rcols := keep.map fun i =>
        let c := r.cols.getD i ""
        if c ∈ l.cols then c ++ "_y" else c
      .ok { path := l.path
            stem := l.stem
            cols := lcols ++ rcols
            rows := (l.rows.map fun lr =>
              (r.rows.filter fun rr =>
                  (lr.getD li (.num none)).joinEq (rr.getD ri (.num none))).map
                fun rr => lr ++ keep.map fun i => rr.getD i (.num none)).flatten }
  | _, _ => .error (.keyError [k])

/-- The value being threaded through `functools.reduce` (lines 144-147): the
first element of `loaded_data` is a dict, every later accumulator is a
DataFrame. -/
inductive PyObj where
  | ent : Entry → PyObj
  | frame : Frame → PyObj

/-- Selecting the column labelled `c` of a frame as a named Series; pandas
promotes such a Series back to a one-column frame when it is merged. -/
def Frame.getColFrame (f : Frame) (c : String) : Except Err Frame :=
  match f.colIdx c with
  | some i => .ok { f with
                    cols := [c]
                    rows := f.rows.map fun r => [r.getD i (.num none)] }
  | none => .error (.keyError [c])

/-- One step of the reduce lambda `lambda left, right: pd.merge(left['df'],
right['df'], on=snp_col)` (line 145). On the first step `left` is the dict,
so `left['df']` is its DataFrame; on every later step `left` is the already
merged DataFrame, so `left['df']` is a column lookup, which raises
`KeyError` unless a column is literally labelled `df`. -/
def mergeStep (snp : String) (acc : PyObj) (x : Entry) : Except Err PyObj :=
  match acc with
  | .ent l => (pdMerge l.df x.df snp).map .frame
  | .frame fr => do
      let sub ← fr.getColFrame "df"
      (pdMerge sub x.df snp).map .frame

/-- The `functools.reduce` call (lines 144-147): reduce of a singleton list
returns its element unreduced (still the dict); reduce of an empty sequence
with no initial value raises `TypeError`. -/
def pyReduce (snp : String) : List Entry → Except Err PyObj
  | [] => .error (.typeError "reduce of empty sequence with no initial value")
  | x :: xs => xs.foldlM (mergeStep snp) (.ent x)

/-- The floor `1e-300` applied by `np.maximum` (line 168). -/
def epsQ : ℚ := 1 / 10 ^ 300

/-- One per-cell contribution `-np.log10(np.maximum(p, 1e-300)) *
normalized_w` (lines 168-169); a missing P-value propagates as NaN. -/
noncomputable def scoreTerm (w : ℝ) (p : Option ℚ) : Option ℝ :=
  p.map fun q => -Real.logb 10 ((max q epsQ : ℚ) : ℝ) * w

/-- Elementwise float addition with NaN propagation, as the `+=` on the
`E_score` column (line 169). -/
def optAdd (a b : Option ℝ) : Option ℝ :=
  match a, b with
  | some x, some y => some (x + y)
  | _, _ => none

/-- Keys of the `loaded_data` dict after line 153 added `E_score` to it: the
state `merged_df` is in when `reduce` returned it unreduced. -/
def dictKeys : List String := ["name", "df", "weight_score", "E_score"]

/-- The normalized weight `w_score / total_weight_denom` (line 161). -/
noncomputable def normalizedWeight (w total : ℝ) : ℝ := w / total

/-- The accumulation loop (lines 156-169) over a merged DataFrame: for each
trait, look up its `P_<trait>` column (`KeyError` when absent), floor it at
`1e-300`, and add `-log10 * weight/total` into the score column. When the
trait's P column has object dtype (some cell of the original column,
carried in the entry's own frame, is non-numeric), `np.maximum` or
`np.log10` raises an uncaught `TypeError`; the dtype travels with the
column through projection, rename and merge, even when the offending rows
were dropped by the join. -/
noncomputable def accumulate (total : ℝ) (fr : Frame) :
    List Entry → List (Option ℝ) → Except Err (List (Option ℝ))
  | [], acc => .ok acc
  | e :: es, acc =>
      match fr.getCol ("P_" ++ e.name) with
      | none => .error (.keyError ["P_" ++ e.name])
      | some col =>
          if e.df.numColB ("P_" ++ e.name) then
            accumulate total fr es
              (acc.zipWith optAdd
                (col.map fun v => scoreTerm (normalizedWeight e.weight_score total) v.toNum))
          else .error (.typeError ("P_" ++ e.name))

/-- The aggregation stage (lines 153-169). When `reduce` returned the dict
unreduced (exactly one input file), line 153 adds the key `E_score` to the
dict and the first loop iteration then indexes the dict with `P_<trait>`:
a `KeyError` unless that string collides with a dict key, in which case
`np.maximum` on the dict value raises `TypeError` instead. -/
noncomputable def aggregate (total : ℝ) (items : List Entry) :
    PyObj → Except Err (Frame × List (Option ℝ))
  | .frame fr =>
      (accumulate total fr items (List.replicate fr.rows.length (some 0))).map (fr, ·)
  | .ent _ =>
      match items with
      | [] => .error (.typeError "unhashable list as dict key")
      | e :: _ =>
          if ("P_" ++ e.name) ∈ dictKeys
          then .error (.typeError "numeric operation on a non-numeric dict value")
          else .error (.keyError ["P_" ++ e.name])

/-- The `sort_values(by='E_score', ascending=False)` of line 174. For a
descending sort pandas `nargsort` reverses the non-NaN keys, argsorts them
ascending (numpy introsort is the stable insertion sort in the small-array
regime), and reverses the resulting indexer again; the double reversal
means rows with equal scores keep their pre-sort order. NaN scores are
placed last in both directions (`na_position='last'`). -/
noncomputable def sortDesc (ps : List (Val × Option ℝ)) : List (Val × Option ℝ) :=
  let nums := ps.filter fun p => p.2.isSome
  let nans := ps.filter fun p => !p.2.isSome
  (List.insertionSort (fun a b => a.2.getD 0 ≤ b.2.getD 0) nums.reverse).reverse ++ nans

/-- The output stage (line 174): select the identifier and score columns and
sort by score descending. The scores live beside the frame in this
embedding, so selecting them cannot fail; a missing identifier column
raises `KeyError`. -/
noncomputable def emitOutput (snp : String) (fr : Frame) (scores : List (Option ℝ)) :
    Except Err (List (Val × Option ℝ)) :=
  match fr.colIdx snp with
  | none => .error (.keyError [snp])
  | some i => .ok (sortDesc ((fr.rows.map fun r => r.getD i (.num none)).zip scores))

/-- The whole pipeline `main` (lines 106-179), from loaded input frames to
the emitted `(variantId, score)` rows. Serialization of the result file is
out of scope; an `Except.error` is a run that died with a non-zero exit
(either by the explicit handler or by an uncaught exception) and wrote no
output file. -/
noncomputable def main (p_col snp_col : String) (inputs : List Frame) :
    Except Err (List (Val × Option ℝ)) := do
  let items ← loadAll p_col snp_col inputs
  let total := totalWeightDenom items
  if total = 0 then .error .degenerateWeights
  else do
    let merged ← pyReduce snp_col items
    let (fr, scores) ← aggregate total items merged
    emitOutput snp_col fr scores

/-- All cells of the column labelled `c` are numeric (possibly missing).
In pandas terms: the column has a float dtype rather than object dtype,
which is the regime the numeric operations of the script are written for. -/
def Frame.numericCol (f : Frame) (c : String) : Prop :=
  ∀ v ∈ (f.getCol c).getD [], ∃ q : Option ℚ, v = Val.num q

/-- All cells of the column labelled `c` are strings, the normal shape of a
variant-identifier column. -/
def Frame.strCol (f : Frame) (c : String) : Prop :=
  ∀ v ∈ (f.getCol c).getD [], ∃ s : String, v = Val.str s

/-- P-value recorded for the variant `v` in the file `f`: the P-cell of the
first row whose identifier cell is `v`. -/
def Frame.pOf (f : Frame) (snp p : String) (v : Val) : Option ℚ :=
  match f.rows.find? (fun r => f.cellAt snp r == v) with
  | some r => (f.cellAt p r).toNum
  | none => none

/-- Descending-score order on emitted rows, with missing scores at the end:
the order the output contract of the emitter is stated in. -/
def scoreGE : Val × Option ℝ → Val × Option ℝ → Prop
  | (_, some x), (_, some y) => y ≤ x
  | (_, none), (_, some _) => False
  | _, _ => True

/-- The element of `loaded_data` produced for one input file: the trait name
is the file stem, the frame is projected to the identifier and P columns
with the P column renamed to `P_<trait>`, and the weight numerator rides
along. This is the normal form `loadAll` produces when the file has both
columns and the identifier column is not the P column. -/
noncomputable def loadedEntry (f : Frame) (snp p : String) : Entry :=
  { name := f.stem
    df := { path := f.path
            stem := f.stem
            cols := [snp, "P_" ++ f.stem]
            rows := f.rows.map fun r => [f.cellAt snp r, f.cellAt p r] }
    weight_score := weightNumerator f p }

/-- Rows of the inner join of two loaded traits on the identifier column:
for each row of the first file, in order, one output row per row of the
second file with a matching identifier, carrying the identifier and both
P-values. -/
def twoTraitRows (f1 f2 : Frame) (snp p : String) : List (List Val) :=
  (f1.rows.map fun r1 =>
    (f2.rows.filter fun r2 => (f1.cellAt snp r1).joinEq (f2.cellAt snp r2)).map
      fun r2 => [f1.cellAt snp r1, f1.cellAt p r1, f2.cellAt p r2]).flatten

/-- The merged DataFrame of a two-file run, in normal form. -/
def mergedTwo (f1 f2 : Frame) (snp p : String) : Frame :=
  { path := f1.path
    stem := f1.stem
    cols := [snp, "P_" ++ f1.stem, "P_" ++ f2.stem]
    rows := twoTraitRows f1 f2 snp p }

/-- The scores the accumulation loop computes for the joined rows of a
two-file run: zero plus one weighted `-log10` term per trait. -/
noncomputable def twoTraitScores (f1 f2 : Frame) (snp p : String) : List (Option ℝ) :=
  (twoTraitRows f1 f2 snp p).map fun r =>
    optAdd
      (optAdd (some 0)
        (scoreTerm
          (normalizedWeight (weightNumerator f1 p) (weightNumerator f1 p + weightNumerator f2 p))
          ((r.getD 1 (.num none)).toNum)))
      (scoreTerm
        (normalizedWeight (weightNumerator f2 p) (weightNumerator f1 p + weightNumerator f2 p))
        ((r.getD 2 (.num none)).toNum))

/-- Sanity conditions on the configured column names: the identifier column
is not the P-value column, is not literally labelled `df` or `E_score`, and
does not collide with a generated `P_<trait>` label. These rule out
degenerate label collisions in which pandas overwrites or suffixes columns;
all realistic configurations (such as the defaults `SNP`/`P`) satisfy
them. -/
def SaneCfg (p snp : String) (inputs : List Frame) : Prop :=
  snp ≠ p ∧ snp ≠ "df" ∧ snp ≠ "E_score" ∧ ∀ f ∈ inputs, snp ≠ "P_" ++ f.stem

/-- Concrete trait file: three variants, P-values all 1/10, a supplied CHI2
column with mean 3 (weight numerator 2). -/
def fA : Frame :=
  { path := "data/traitA.txt"
    stem := "traitA"
    cols := ["SNP", "P", "CHI2"]
    rows := [[.str "rs1", .num (some (1/10)), .num (some 3)],
             [.str "rs3", .num (some (1/10)), .num (some 3)],
             [.str "rs2", .num (some (1/10)), .num (some 3)]] }

/-- Concrete trait file: two variants shared with `fA`, P-values 1/10,
supplied CHI2 column with mean 3 (weight numerator 2). -/
def fB : Frame :=
  { path := "data/traitB.txt"
    stem := "traitB"
    cols := ["SNP", "P", "CHI2"]
    rows := [[.str "rs1", .num (some (1/10)), .num (some 3)],
             [.str "rs2", .num (some (1/10)), .num (some 3)]] }

/-- Concrete trait file whose identifier column repeats `rs1`. -/
def fDup : Frame :=
  { path := "data/traitD.txt"
    stem := "traitD"
    cols := ["SNP", "P", "CHI2"]
    rows := [[.str "rs1", .num (some (1/10)), .num (some 3)],
             [.str "rs1", .num (some (1/10)), .num (some 3)]] }

/-- Concrete trait file with a missing P-value in the `rs1` row. -/
def fNaN : Frame :=
  { path := "data/traitN.txt"
    stem := "traitN"
    cols := ["SNP", "P", "CHI2"]
    rows := [[.str "rs1", .num none, .num (some 3)],
             [.str "rs2", .num (some (1/10)), .num (some 3)]] }

/-- Concrete trait file with no inflation: mean CHI2 exactly 1, weight
numerator 0. -/
def fZero : Frame :=
  { path := "data/traitZ.txt"
    stem := "traitZ"
    cols := ["SNP", "P", "CHI2"]
    rows := [[.str "rs1", .num (some (1/10)), .num (some 1)]] }

/-- Concrete input file with no P-value column. -/
def fNoP : Frame :=
  { path := "data/noP.txt"
    stem := "noP"
    cols := ["SNP", "BETA"]
    rows := [[.str "rs1", .num (some 1)]] }

/-- Concrete input file with a P-value column but no identifier column. -/
def fNoSNP : Frame :=
  { path := "data/noSNP.txt"
    stem := "noSNP"
    cols := ["ID", "P", "CHI2"]
    rows := [[.str "rs1", .num (some (1/10)), .num (some 3)]] }

/-- Concrete trait file listing `rs2` before `rs1`, same values as `fB`. -/
def fC : Frame :=
  { path := "data/traitC.txt"
    stem := "traitC"
    cols := ["SNP", "P", "CHI2"]
    rows := [[.str "rs2", .num (some (1/10)), .num (some 3)],
             [.str "rs1", .num (some (1/10)), .num (some 3)]] }

/-- Concrete trait file with a non-numeric P-value cell and no CHI2 column:
after `read_csv` its P column has object dtype. -/
def fStr : Frame :=
  { path := "data/traitS.txt"
    stem := "traitS"
    cols := ["SNP", "P"]
    rows := [[.str "rs1", .str "bad"]] }

/-- A loaded-and-renamed frame whose `P_traitS` column has object dtype,
as it reaches the aggregation loop. -/
def fStrP : Frame :=
  { path := "data/traitS.txt"
    stem := "traitS"
    cols := ["P_traitS"]
    rows := [[.str "bad"]] }

/-- First of three equal-stem single-row trait files used with the
pathological identifier-column name `df`: P = 1/10, CHI2 = 3. -/
def g1 : Frame :=
  { path := "a/t.csv"
    stem := "t"
    cols := ["df", "P", "CHI2"]
    rows := [[.str "rs1", .num (some (1/10)), .num (some 3)]] }

/-- Second equal-stem trait file of the `df` run: P = 1/10, CHI2 = 3. -/
def g2 : Frame :=
  { path := "b/t.csv"
    stem := "t"
    cols := ["df", "P", "CHI2"]
    rows := [[.str "rs1", .num (some (1/10)), .num (some 3)]] }

/-- Third equal-stem trait file of the `df` run: P = 1, CHI2 = 3. -/
def g3 : Frame :=
  { path := "c/t.csv"
    stem := "t"
    cols := ["df", "P", "CHI2"]
    rows := [[.str "rs1", .num (some 1), .num (some 3)]] }

/-- The merged frame the reduce produces on `[g1, g2, g3]` with identifier
column `df`: only the last trait's P column survives. -/
def gMerged : Frame :=
  { path := "a/t.csv"
    stem := "t"
    cols := ["df", "P_t"]
    rows := [[.str "rs1", .num (some 1)]] }

/-! ## String facts about generated column labels -/

lemma data_headP (t : String) : ("P_" ++ t).data.head? = some 'P' := by
  simp [String.data_append]

lemma pName_ne (t : String) {s : String} (h : s.data.head? ≠ some 'P') :
    "P_" ++ t ≠ s := by
  intro he
  exact h (he ▸ data_headP t)

lemma pName_app_head (t x : String) : (("P_" ++ t) ++ x).data.head? = some 'P' := by
  simp [String.data_append]

lemma pName_app_ne (t x : String) {s : String} (h : s.data.head? ≠ some 'P') :
    ("P_" ++ t) ++ x ≠ s := by
  intro he
  exact h (he ▸ pName_app_head t x)

lemma pName_inj {t u : String} (h : "P_" ++ t = "P_" ++ u) : t = u := by
  have hd : ("P_" ++ t).data = ("P_" ++ u).data := by rw [h]
  simp [String.data_append] at hd
  exact String.ext hd

lemma append_ne_self {x : String} (y : String) (hy : y.data ≠ []) : x ++ y ≠ x := by
  intro he
  have hd : (x ++ y).data = x.data := by rw [he]
  simp [String.data_append] at hd
  exact hy hd

lemma pName_not_mem_dictKeys (t : String) : ("P_" ++ t) ∉ dictKeys := by
  intro h
  simp only [dictKeys, List.mem_cons, List.not_mem_nil, or_false] at h
  rcases h with h | h | h | h
  · exact pName_ne t (by decide) h
  · exact pName_ne t (by decide) h
  · exact pName_ne t (by decide) h
  · exact pName_ne t (by decide) h

/-! ## Computation rules for the `Except` monad -/

lemma exbind_ok {α β : Type} (a : α) (f : α → Except Err β) :
    (Except.ok a >>= f : Except Err β) = f a := rfl

lemma exbind_err {α β : Type} (e : Err) (f : α → Except Err β) :
    (Except.error e >>= f : Except Err β) = .error e := rfl

lemma exmap_ok {α β : Type} (g : α → β) (a : α) :
    (Except.map g (Except.ok a) : Except Err β) = .ok (g a) := rfl

lemma exmap_err {α β : Type} (g : α → β) (e : Err) :
    (Except.map g (Except.error e) : Except Err β) = .error e := rfl

/-! ## Stage lemmas: loader -/

lemma load_ok {f : Frame} {p : String} (h : p ∈ f.cols)
    (hnum : f.chi2ColNumeric p = true) :
    load_and_calculate_weight f p = .ok (f.stem, f, weightNumerator f p) := by
  simp [load_and_calculate_weight, h, hnum]

lemma load_err {f : Frame} {p : String} (h : p ∉ f.cols) :
    load_and_calculate_weight f p = .error (.schemaError f.path p) := by
  simp [load_and_calculate_weight, h]

lemma load_err_nonnum {f : Frame} {p : String} (h : p ∈ f.cols)
    (hnum : f.chi2ColNumeric p = false) :
    load_and_calculate_weight f p = .error (.typeError f.path) := by
  simp [load_and_calculate_weight, h, hnum]

lemma project_pair_ok {f : Frame} {snp p : String} (hs : snp ∈ f.cols) (hp : p ∈ f.cols) :
    f.project [snp, p] =
      .ok { path := f.path
            stem := f.stem
            cols := [snp, p]
            rows := f.rows.map fun r => [f.cellAt snp r, f.cellAt p r] } := by
  simp [Frame.project, hs, hp]

lemma project_pair_err {f : Frame} {snp p : String} (hs : snp ∉ f.cols) (hp : p ∈ f.cols) :
    f.project [snp, p] = .error (.keyError [snp]) := by
  simp [Frame.project, hs, hp, List.filter]

lemma loadAll_cons_ok {p snp : String} {f : Frame} (fs : List Frame)
    (hp : p ∈ f.cols) (hs : snp ∈ f.cols) (hne : snp ≠ p)
    (hnum : f.chi2ColNumeric p = true) :
    loadAll p snp (f :: fs) = (loadAll p snp fs).map (loadedEntry f snp p :: ·) := by
  simp only [loadAll, load_ok hp hnum, exbind_ok, project_pair_ok hs hp]
  cases hrest : loadAll p snp fs with
  | ok items =>
      simp [hrest, exbind_ok, exmap_ok, Frame.renameCol, loadedEntry, hne]
  | error e => simp [hrest, exbind_err, exmap_err]

lemma loadAll_map {p snp : String} {inputs : List Frame}
    (hmem : ∀ f ∈ inputs, p ∈ f.cols ∧ snp ∈ f.cols ∧ f.chi2ColNumeric p = true)
    (hne : snp ≠ p) :
    loadAll p snp inputs = .ok (inputs.map fun f => loadedEntry f snp p) := by
  induction inputs with
  | nil => rfl
  | cons f fs ih =>
      have hf := hmem f (List.mem_cons_self f fs)
      rw [loadAll_cons_ok fs hf.1 hf.2.1 hne hf.2.2,
        ih fun g hg => hmem g (List.mem_cons_of_mem f hg)]
      rfl

lemma loadAll_ok_mem {p snp : String} {inputs : List Frame} {items : List Entry}
    (h : loadAll p snp inputs = .ok items) :
    ∀ f ∈ inputs, p ∈ f.cols ∧ snp ∈ f.cols ∧ f.chi2ColNumeric p = true := by
  induction inputs generalizing items with
  | nil => intro f hf; cases hf
  | cons f fs ih =>
      by_cases hp : p ∈ f.cols
      · by_cases hnum : f.chi2ColNumeric p = true
        · rw [loadAll, load_ok hp hnum] at h
          simp only [exbind_ok] at h
          by_cases hs : snp ∈ f.cols
          · rw [project_pair_ok hs hp] at h
            simp only [exbind_ok] at h
            cases hrest : loadAll p snp fs with
            | error e => rw [hrest] at h; simp only [exbind_err] at h; cases h
            | ok rest =>
                rw [hrest] at h
                intro g hg
                rcases List.mem_cons.mp hg with rfl | hgs
                · exact ⟨hp, hs, hnum⟩
                · exact ih hrest g hgs
          · rw [project_pair_err hs hp] at h
            simp only [exbind_err] at h
            cases h
        · rw [loadAll, load_err_nonnum hp (Bool.not_eq_true _ ▸ hnum)] at h
          simp only [exbind_err] at h
          cases h
      · rw [loadAll, load_err hp] at h
        simp only [exbind_err] at h
        cases h

/-! ## Column-index lemmas -/

lemma findIdxQ_cons_pos {α : Type} {p : α → Bool} {a : α} (l : List α) (i : Nat)
    (h : p a = true) : List.findIdx? p (a :: l) i = some i := by
  simp [List.findIdx?, h]

lemma findIdxQ_cons_neg {α : Type} {p : α → Bool} {a : α} (l : List α) (i : Nat)
    (h : p a = false) : List.findIdx? p (a :: l) i = List.findIdx? p l (i + 1) := by
  simp [List.findIdx?, h]

lemma colIdx_eq_none {f : Frame} {c : String} (h : c ∉ f.cols) : f.colIdx c = none := by
  unfold Frame.colIdx
  have : ∀ (l : List String) (i : Nat), c ∉ l → List.findIdx? (· = c) l i = none := by
    intro l
    induction l with
    | nil => intro i _; rfl
    | cons a l ih =>
        intro i hm
        rw [findIdxQ_cons_neg l i (by simp_all [eq_comm]), ih (i + 1) (fun hc => hm (List.mem_cons_of_mem a hc))]
  exact this f.cols 0 h

lemma getCol_eq_none {f : Frame} {c : String} (h : c ∉ f.cols) : f.getCol c = none := by
  simp [Frame.getCol, colIdx_eq_none h]

lemma colIdx_mem_some {c : String} {l : List String} :
    ∀ i : Nat, c ∈ l → ∃ j, List.findIdx? (· = c) l i = some j := by
  induction l with
  | nil => intro i h; cases h
  | cons a l ih =>
      intro i h
      by_cases hac : a = c
      · exact ⟨i, findIdxQ_cons_pos l i (by simp [hac])⟩
      · rcases List.mem_cons.mp h with h | h
        · exact absurd h.symm hac
        · obtain ⟨j, hj⟩ := ih (i + 1) h
          exact ⟨j, by rw [findIdxQ_cons_neg l i (by simp [hac]), hj]⟩

lemma getColD_eq_cells {f : Frame} {c : String} (h : c ∈ f.cols) :
    (f.getCol c).getD [] = f.rows.map fun r => f.cellAt c r := by
  obtain ⟨j, hj⟩ := colIdx_mem_some (l := f.cols) 0 h
  unfold Frame.getCol Frame.cellAt Frame.colIdx
  rw [hj]
  simp

lemma loadedEntry_numColB {f : Frame} {snp p : String}
    (hsP : snp ≠ "P_" ++ f.stem) (hp : p ∈ f.cols) :
    (loadedEntry f snp p).df.numColB ("P_" ++ f.stem) = f.numColB p := by
  unfold Frame.numColB
  have hL : ((loadedEntry f snp p).df.getCol ("P_" ++ f.stem)).getD [] =
      f.rows.map fun r => f.cellAt p r := by
    unfold loadedEntry Frame.getCol Frame.colIdx
    rw [findIdxQ_cons_neg _ 0 (by simp [hsP]), findIdxQ_cons_pos _ 1 (by simp)]
    simp
  rw [hL, getColD_eq_cells hp]

/-! ## Merge of two loaded traits -/

lemma pdMerge_loaded {f1 f2 : Frame} {snp p : String}
    (h1 : snp ≠ "P_" ++ f1.stem) (h2 : snp ≠ "P_" ++ f2.stem)
    (hst : f1.stem ≠ f2.stem) :
    pdMerge (loadedEntry f1 snp p).df (loadedEntry f2 snp p).df snp =
      .ok (mergedTwo f1 f2 snp p) := by
  have hP12 : ("P_" ++ f1.stem) ≠ "P_" ++ f2.stem := fun h => hst (pName_inj h)
  have hidx : ∀ g : Frame, List.findIdx? (· = snp) (snp :: g.cols) 0 = some 0 := by
    intro g; exact findIdxQ_cons_pos _ 0 (by simp)
  simp only [pdMerge, loadedEntry, Frame.colIdx]
  rw [findIdxQ_cons_pos _ 0 (by simp), findIdxQ_cons_pos _ 0 (by simp)]
  simp only [mergedTwo, twoTraitRows]
  congr 1
  refine Frame.mk.injEq _ _ _ _ _ _ _ _ |>.mpr ⟨rfl, rfl, ?_, ?_⟩
  · simp [h1.symm, h2.symm, hP12, Ne.symm hP12, List.range, List.range.loop, List.filter]
  · simp [List.range, List.range.loop, List.filter, Function.comp_def, List.filter_map,
      List.map_map]

lemma pdMerge_loaded_eqstem {f1 f2 : Frame} {snp p : String}
    (h1 : snp ≠ "P_" ++ f1.stem) (hst : f1.stem = f2.stem) :
    pdMerge (loadedEntry f1 snp p).df (loadedEntry f2 snp p).df snp =
      .ok { path := f1.path
            stem := f1.stem
            cols := [snp, ("P_" ++ f1.stem) ++ "_x", ("P_" ++ f2.stem) ++ "_y"]
            rows := twoTraitRows f1 f2 snp p } := by
  simp only [pdMerge, loadedEntry, Frame.colIdx]
  rw [findIdxQ_cons_pos _ 0 (by simp), findIdxQ_cons_pos _ 0 (by simp)]
  simp only [twoTraitRows]
  congr 1
  refine Frame.mk.injEq _ _ _ _ _ _ _ _ |>.mpr ⟨rfl, rfl, ?_, ?_⟩
  · have h1x : ("P_" ++ f2.stem) ≠ snp := fun h => h1 (by rw [hst]; exact h.symm)
    simp [List.range, List.range.loop, List.filter, hst, h1x]
  · simp [List.range, List.range.loop, List.filter, Function.comp_def, List.filter_map,
      List.map_map]

/-! ## Reduce and aggregation lemmas -/

lemma mergeStep_ent (snp : String) (l x : Entry) :
    mergeStep snp (.ent l) x = (pdMerge l.df x.df snp).map .frame := rfl

lemma mergeStep_frame_err {fr : Frame} (snp : String) (x : Entry) (h : "df" ∉ fr.cols) :
    mergeStep snp (.frame fr) x = .error (.keyError ["df"]) := by
  simp [mergeStep, Frame.getColFrame, colIdx_eq_none h, exbind_err]

lemma pyReduce_two (snp : String) (e1 e2 : Entry) :
    pyReduce snp [e1, e2] = (pdMerge e1.df e2.df snp).map .frame := by
  show List.foldlM (mergeStep snp) (.ent e1) [e2] = _
  rw [List.foldlM_cons, mergeStep_ent]
  cases pdMerge e1.df e2.df snp with
  | ok fr => rfl
  | error e => rfl

lemma aggregate_ent_err (total : ℝ) (e : Entry) (es : List Entry) (x : Entry) :
    aggregate total (e :: es) (.ent x) = .error (.keyError ["P_" ++ e.name]) := by
  simp [aggregate, pName_not_mem_dictKeys e.name]

lemma accumulate_cons_some {fr : Frame} {e : Entry} {col : List Val}
    (total : ℝ) (es : List Entry) (acc : List (Option ℝ))
    (h : fr.getCol ("P_" ++ e.name) = some col)
    (hnum : e.df.numColB ("P_" ++ e.name) = true) :
    accumulate total fr (e :: es) acc =
      accumulate total fr es
        (acc.zipWith optAdd
          (col.map fun v => scoreTerm (normalizedWeight e.weight_score total) v.toNum)) := by
  simp [accumulate, h, hnum]

lemma accumulate_cons_nonnum {fr : Frame} {e : Entry} {col : List Val}
    (total : ℝ) (es : List Entry) (acc : List (Option ℝ))
    (h : fr.getCol ("P_" ++ e.name) = some col)
    (hnum : e.df.numColB ("P_" ++ e.name) = false) :
    accumulate total fr (e :: es) acc = .error (.typeError ("P_" ++ e.name)) := by
  simp [accumulate, h, hnum]

lemma accumulate_cons_none {fr : Frame} {e : Entry}
    (total : ℝ) (es : List Entry) (acc : List (Option ℝ))
    (h : fr.getCol ("P_" ++ e.name) = none) :
    accumulate total fr (e :: es) acc = .error (.keyError ["P_" ++ e.name]) := by
  simp [accumulate, h]

lemma getCol_mergedTwo_fst {f1 f2 : Frame} {snp p : String}
    (h1 : snp ≠ "P_" ++ f1.stem) :
    (mergedTwo f1 f2 snp p).getCol ("P_" ++ f1.stem) =
      some ((twoTraitRows f1 f2 snp p).map fun r => r.getD 1 (.num none)) := by
  unfold Frame.getCol Frame.colIdx mergedTwo
  rw [findIdxQ_cons_neg _ 0 (by simp [h1]), findIdxQ_cons_pos _ 1 (by simp)]
  rfl

lemma getCol_mergedTwo_snd {f1 f2 : Frame} {snp p : String}
    (h2 : snp ≠ "P_" ++ f2.stem) (hst : f1.stem ≠ f2.stem) :
    (mergedTwo f1 f2 snp p).getCol ("P_" ++ f2.stem) =
      some ((twoTraitRows f1 f2 snp p).map fun r => r.getD 2 (.num none)) := by
  have hP12 : ("P_" ++ f1.stem) ≠ "P_" ++ f2.stem := fun h => hst (pName_inj h)
  unfold Frame.getCol Frame.colIdx mergedTwo
  rw [findIdxQ_cons_neg _ 0 (by simp [h2]),
    findIdxQ_cons_neg _ 1 (by simp [hP12]), findIdxQ_cons_pos _ 2 (by simp)]
  rfl

lemma emit_mergedTwo (f1 f2 : Frame) (snp p : String) (scores : List (Option ℝ)) :
    emitOutput snp (mergedTwo f1 f2 snp p) scores =
      .ok (sortDesc
        (((twoTraitRows f1 f2 snp p).map fun r => r.getD 0 (.num none)).zip scores)) := by
  unfold emitOutput Frame.colIdx mergedTwo
  rw [findIdxQ_cons_pos _ 0 (by simp)]

lemma totalWeightDenom_two (e1 e2 : Entry) :
    totalWeightDenom [e1, e2] = e1.weight_score + e2.weight_score := by
  simp [totalWeightDenom]

lemma zipWith_replicate_left {α β : Type} (f : β → α → β) (c : β) (l : List α) :
    List.zipWith f (List.replicate l.length c) l = l.map (f c) := by
  induction l with
  | nil => rfl
  | cons a l ih => simp [List.replicate, ih]

lemma zipWith_map_same {α β γ δ : Type} (f : β → γ → δ) (g : α → β) (h : α → γ)
    (l : List α) :
    List.zipWith f (l.map g) (l.map h) = l.map fun x => f (g x) (h x) := by
  induction l with
  | nil => rfl
  | cons a l ih => simp [ih]

lemma optAdd_paired {α : Type} (c : Option ℝ) (A B : α → Option ℝ) (rows : List α) :
    List.zipWith optAdd
      (List.zipWith optAdd (List.replicate rows.length c) (rows.map A)) (rows.map B) =
      rows.map fun r => optAdd (optAdd c (A r)) (B r) := by
  induction rows with
  | nil => rfl
  | cons r rs ih => simp [List.replicate, ih]

lemma accumulate_two {f1 f2 : Frame} {snp p : String} (total : ℝ)
    (h1 : snp ≠ "P_" ++ f1.stem) (h2 : snp ≠ "P_" ++ f2.stem)
    (hst : f1.stem ≠ f2.stem)
    (hn1 : (loadedEntry f1 snp p).df.numColB ("P_" ++ f1.stem) = true)
    (hn2 : (loadedEntry f2 snp p).df.numColB ("P_" ++ f2.stem) = true) :
    accumulate total (mergedTwo f1 f2 snp p)
      [loadedEntry f1 snp p, loadedEntry f2 snp p]
      (List.replicate (mergedTwo f1 f2 snp p).rows.length (some 0)) =
      .ok ((twoTraitRows f1 f2 snp p).map fun r =>
        optAdd
          (optAdd (some 0)
            (scoreTerm (normalizedWeight (weightNumerator f1 p) total)
              ((r.getD 1 (.num none)).toNum)))
          (scoreTerm (normalizedWeight (weightNumerator f2 p) total)
            ((r.getD 2 (.num none)).toNum))) := by
  rw [accumulate_cons_some total _ _ (getCol_mergedTwo_fst h1) hn1,
    accumulate_cons_some total _ _ (getCol_mergedTwo_snd h2 hst) hn2, accumulate]
  congr 1
  simp only [loadedEntry, List.map_map]
  have hlen : (mergedTwo f1 f2 snp p).rows.length = (twoTraitRows f1 f2 snp p).length := rfl
  rw [hlen, optAdd_paired]
  simp [Function.comp_apply]

/-! ## Normal form of a completing two-file run -/

lemma main_two {p snp : String} {f1 f2 : Frame}
    (hp1 : p ∈ f1.cols) (hp2 : p ∈ f2.cols) (hs1 : snp ∈ f1.cols) (hs2 : snp ∈ f2.cols)
    (hne : snp ≠ p) (h1 : snp ≠ "P_" ++ f1.stem) (h2 : snp ≠ "P_" ++ f2.stem)
    (hst : f1.stem ≠ f2.stem)
    (hcn1 : f1.chi2ColNumeric p = true) (hcn2 : f2.chi2ColNumeric p = true)
    (hpn1 : f1.numColB p = true) (hpn2 : f2.numColB p = true)
    (htot : weightNumerator f1 p + weightNumerator f2 p ≠ 0) :
    main p snp [f1, f2] =
      .ok (sortDesc (((twoTraitRows f1 f2 snp p).map fun r => r.getD 0 (.num none)).zip
        (twoTraitScores f1 f2 snp p))) := by
  have hmem : ∀ f ∈ [f1, f2], p ∈ f.cols ∧ snp ∈ f.cols ∧ f.chi2ColNumeric p = true := by
    intro g hg
    rcases List.mem_cons.mp hg with rfl | hg2
    · exact ⟨hp1, hs1, hcn1⟩
    · rcases List.mem_cons.mp hg2 with rfl | hg3
      · exact ⟨hp2, hs2, hcn2⟩
      · cases hg3
  have hload : loadAll p snp [f1, f2] = .ok [loadedEntry f1 snp p, loadedEntry f2 snp p] :=
    loadAll_map hmem hne
  have htotal : totalWeightDenom [loadedEntry f1 snp p, loadedEntry f2 snp p] =
      weightNumerator f1 p + weightNumerator f2 p := by
    simp [totalWeightDenom, loadedEntry]
  unfold main
  rw [hload]
  simp only [exbind_ok, htotal, if_neg htot, pyReduce_two,
    pdMerge_loaded h1 h2 hst, exmap_ok, aggregate]
  rw [accumulate_two _ h1 h2 hst
    ((loadedEntry_numColB h1 hp1).trans hpn1)
    ((loadedEntry_numColB h2 hp2).trans hpn2)]
  simp only [exmap_ok, exbind_ok, emit_mergedTwo]
  rfl

lemma df_not_mem_plain {snp t1 t2 : String} (hdf : snp ≠ "df") :
    "df" ∉ [snp, "P_" ++ t1, "P_" ++ t2] := by
  intro h
  rcases List.mem_cons.mp h with h | h
  · exact hdf h.symm
  rcases List.mem_cons.mp h with h | h
  · exact pName_ne t1 (by decide) h.symm
  rcases List.mem_cons.mp h with h | h
  · exact pName_ne t2 (by decide) h.symm
  · cases h

lemma df_not_mem_suffixed {snp t1 t2 : String} (hdf : snp ≠ "df") :
    "df" ∉ [snp, ("P_" ++ t1) ++ "_x", ("P_" ++ t2) ++ "_y"] := by
  intro h
  rcases List.mem_cons.mp h with h | h
  · exact hdf h.symm
  rcases List.mem_cons.mp h with h | h
  · exact pName_app_ne t1 "_x" (by decide) h.symm
  rcases List.mem_cons.mp h with h | h
  · exact pName_app_ne t2 "_y" (by decide) h.symm
  · cases h

lemma pfst_not_mem_suffixed {snp t1 t2 : String} (hs : snp ≠ "P_" ++ t1) (hst : t1 = t2) :
    ("P_" ++ t1) ∉ [snp, ("P_" ++ t1) ++ "_x", ("P_" ++ t2) ++ "_y"] := by
  intro h
  rcases List.mem_cons.mp h with h | h
  · exact hs h.symm
  rcases List.mem_cons.mp h with h | h
  · exact append_ne_self "_x" (by decide) h.symm
  rcases List.mem_cons.mp h with h | h
  · exact append_ne_self "_y" (by decide) (hst ▸ h.symm)
  · cases h

lemma main_ok_shape {p snp : String} {inputs : List Frame} {out : List (Val × Option ℝ)}
    (hrun : main p snp inputs = .ok out) (hsane : SaneCfg p snp inputs) :
    ∃ f1 f2, inputs = [f1, f2] ∧ p ∈ f1.cols ∧ p ∈ f2.cols ∧ snp ∈ f1.cols ∧
      snp ∈ f2.cols ∧ f1.stem ≠ f2.stem ∧
      weightNumerator f1 p + weightNumerator f2 p ≠ 0 ∧
      f1.numColB p = true ∧ f2.numColB p = true ∧
      out = sortDesc (((twoTraitRows f1 f2 snp p).map fun r => r.getD 0 (.num none)).zip
        (twoTraitScores f1 f2 snp p)) := by
  obtain ⟨hne, hdf, hE, hP⟩ := hsane
  have hrun0 := hrun
  unfold main at hrun
  cases hload : loadAll p snp inputs with
  | error e => rw [hload] at hrun; simp only [exbind_err] at hrun; cases hrun
  | ok items =>
  rw [hload] at hrun
  simp only [exbind_ok] at hrun
  have hmem := loadAll_ok_mem hload
  have hitems : items = inputs.map fun f => loadedEntry f snp p := by
    have hh := loadAll_map hmem hne
    rw [hload] at hh
    exact (Except.ok.injEq _ _).mp hh
  subst hitems
  match inputs, hmem, hP, hrun0 with
  | [], hmem, hP, hrun0 =>
      rw [show totalWeightDenom (List.map (fun f => loadedEntry f snp p) []) = 0 from rfl,
        if_pos rfl] at hrun
      cases hrun
  | [f1], hmem, hP, hrun0 =>
      have htotal : totalWeightDenom (List.map (fun f => loadedEntry f snp p) [f1]) =
          weightNumerator f1 p := by
        simp [totalWeightDenom, loadedEntry]
      rw [htotal] at hrun
      by_cases h0 : weightNumerator f1 p = 0
      · rw [if_pos h0] at hrun; cases hrun
      · rw [if_neg h0] at hrun
        rw [show pyReduce snp (List.map (fun f => loadedEntry f snp p) [f1]) =
            .ok (.ent (loadedEntry f1 snp p)) from rfl] at hrun
        simp only [exbind_ok, List.map_cons, List.map_nil] at hrun
        rw [aggregate_ent_err] at hrun
        simp only [exbind_err] at hrun
        cases hrun
  | f1 :: f2 :: rest, hmem, hP, hrun0 =>
  have h1 : snp ≠ "P_" ++ f1.stem := hP f1 (by simp)
  have h2 : snp ≠ "P_" ++ f2.stem := hP f2 (by simp)
  have hp1 := (hmem f1 (by simp)).1
  have hp2 := (hmem f2 (by simp)).1
  have hs1 := (hmem f1 (by simp)).2.1
  have hs2 := (hmem f2 (by simp)).2.1
  have hcn1 := (hmem f1 (by simp)).2.2
  have hcn2 := (hmem f2 (by simp)).2.2
  match rest, hrun, hrun0 with
  | [], hrun, hrun0 =>
      have htotal : totalWeightDenom (List.map (fun f => loadedEntry f snp p) [f1, f2]) =
          weightNumerator f1 p + weightNumerator f2 p := by
        simp [totalWeightDenom, loadedEntry]
      rw [htotal] at hrun
      by_cases h0 : weightNumerator f1 p + weightNumerator f2 p = 0
      · rw [if_pos h0] at hrun; cases hrun
      rw [if_neg h0] at hrun
      simp only [List.map_cons, List.map_nil] at hrun
      rw [pyReduce_two] at hrun
      by_cases hst : f1.stem = f2.stem
      · rw [pdMerge_loaded_eqstem h1 hst, exmap_ok] at hrun
        simp only [exbind_ok, aggregate] at hrun
        rw [accumulate_cons_none _ _ _
          (getCol_eq_none (pfst_not_mem_suffixed h1 (by rw [hst])))] at hrun
        simp only [exmap_err, exbind_err] at hrun
        cases hrun
      · by_cases hn1 : f1.numColB p = true
        · by_cases hn2 : f2.numColB p = true
          · refine ⟨f1, f2, rfl, hp1, hp2, hs1, hs2, hst, h0, hn1, hn2, ?_⟩
            have := main_two hp1 hp2 hs1 hs2 hne h1 h2 hst hcn1 hcn2 hn1 hn2 h0
            rw [hrun0] at this
            exact (Except.ok.injEq _ _).mp this
          · exfalso
            rw [pdMerge_loaded h1 h2 hst, exmap_ok] at hrun
            simp only [exbind_ok, aggregate] at hrun
            rw [accumulate_cons_some _ _ _ (getCol_mergedTwo_fst h1)
                ((loadedEntry_numColB h1 hp1).trans hn1),
              accumulate_cons_nonnum _ _ _ (getCol_mergedTwo_snd h2 hst)
                ((loadedEntry_numColB h2 hp2).trans (Bool.eq_false_iff.mpr hn2))] at hrun
            simp only [exmap_err, exbind_err] at hrun
            cases hrun
        · exfalso
          rw [pdMerge_loaded h1 h2 hst, exmap_ok] at hrun
          simp only [exbind_ok, aggregate] at hrun
          rw [accumulate_cons_nonnum _ _ _ (getCol_mergedTwo_fst h1)
              ((loadedEntry_numColB h1 hp1).trans (Bool.eq_false_iff.mpr hn1))] at hrun
          simp only [exmap_err, exbind_err] at hrun
          cases hrun
  | f3 :: rest2, hrun, hrun0 =>
      by_cases h0 : totalWeightDenom
          (List.map (fun f => loadedEntry f snp p) (f1 :: f2 :: f3 :: rest2)) = 0
      · rw [if_pos h0] at hrun; cases hrun
      rw [if_neg h0] at hrun
      simp only [pyReduce, List.map_cons, List.foldlM_cons, mergeStep_ent] at hrun
      by_cases hst : f1.stem = f2.stem
      · rw [pdMerge_loaded_eqstem h1 hst, exmap_ok] at hrun
        simp only [exbind_ok, List.foldlM_cons] at hrun
        rw [mergeStep_frame_err snp _ (df_not_mem_suffixed hdf)] at hrun
        simp only [exbind_err] at hrun
        cases hrun
      · rw [pdMerge_loaded h1 h2 hst, exmap_ok] at hrun
        simp only [exbind_ok, List.foldlM_cons] at hrun
        rw [mergeStep_frame_err snp _ (df_not_mem_plain hdf)] at hrun
        simp only [exbind_err] at hrun
        cases hrun

/-! ## Order properties of the emitted rows -/

lemma sortDesc_perm (ps : List (Val × Option ℝ)) : List.Perm (sortDesc ps) ps := by
  unfold sortDesc
  refine List.Perm.trans ?_ (List.filter_append_perm (fun x => x.2.isSome) ps)
  exact (((List.reverse_perm _).trans (List.perm_insertionSort _ _)).trans
    (List.reverse_perm _)).append_right _

lemma sortDesc_pairwise (ps : List (Val × Option ℝ)) : (sortDesc ps).Pairwise scoreGE := by
  have hr : IsTotal (Val × Option ℝ) (fun a b => a.2.getD 0 ≤ b.2.getD 0) :=
    ⟨fun a b => le_total _ _⟩
  have ht : IsTrans (Val × Option ℝ) (fun a b => a.2.getD 0 ≤ b.2.getD 0) :=
    ⟨fun a b c hab hbc => le_trans hab hbc⟩
  unfold sortDesc
  rw [List.pairwise_append]
  refine ⟨?_, ?_, ?_⟩
  · rw [List.pairwise_reverse]
    have hsort := List.sorted_insertionSort (fun a b => a.2.getD 0 ≤ b.2.getD 0)
      ((ps.filter fun x => x.2.isSome).reverse)
    refine List.Pairwise.imp_of_mem ?_ hsort
    intro a b ha hb hab
    have hsa : a.2.isSome := by
      have := List.mem_filter.mp
        (List.mem_reverse.mp ((List.perm_insertionSort _ _).mem_iff.mp ha))
      exact this.2
    have hsb : b.2.isSome := by
      have := List.mem_filter.mp
        (List.mem_reverse.mp ((List.perm_insertionSort _ _).mem_iff.mp hb))
      exact this.2
    obtain ⟨x, hx⟩ := Option.isSome_iff_exists.mp hsa
    obtain ⟨y, hy⟩ := Option.isSome_iff_exists.mp hsb
    obtain ⟨a1, a2⟩ := a
    obtain ⟨b1, b2⟩ := b
    cases hx
    cases hy
    simpa [scoreGE, flip] using hab
  · refine List.pairwise_of_forall_mem_list ?_
    intro a ha b hb
    have hna : ¬a.2.isSome := by simpa using (List.mem_filter.mp ha).2
    have hnb : ¬b.2.isSome := by simpa using (List.mem_filter.mp hb).2
    obtain ⟨a1, a2⟩ := a
    obtain ⟨b1, b2⟩ := b
    cases a2 with
    | some x => simp at hna
    | none =>
        cases b2 with
        | some y => simp at hnb
        | none => trivial
  · intro a ha b hb
    have hsa : a.2.isSome := by
      have := List.mem_filter.mp
        (List.mem_reverse.mp ((List.perm_insertionSort _ _).mem_iff.mp
          (List.mem_reverse.mp ha)))
      exact this.2
    have hnb : ¬b.2.isSome := by simpa using (List.mem_filter.mp hb).2
    obtain ⟨a1, a2⟩ := a
    obtain ⟨b1, b2⟩ := b
    cases a2 with
    | none => simp at hsa
    | some x =>
        cases b2 with
        | some y => simp at hnb
        | none => trivial

lemma emitOutput_ok_sorted {snp : String} {fr : Frame} {scores : List (Option ℝ)}
    {out : List (Val × Option ℝ)} (h : emitOutput snp fr scores = .ok out) :
    out.Pairwise scoreGE := by
  unfold emitOutput at h
  cases hidx : fr.colIdx snp with
  | none => rw [hidx] at h; cases h
  | some i =>
      rw [hidx] at h
      have := (Except.ok.injEq _ _).mp h
      rw [← this]
      exact sortDesc_pairwise _

lemma main_ok_sorted {p snp : String} {inputs : List Frame}
    {out : List (Val × Option ℝ)} (h : main p snp inputs = .ok out) :
    out.Pairwise scoreGE := by
  unfold main at h
  cases hload : loadAll p snp inputs with
  | error e => rw [hload] at h; simp only [exbind_err] at h; cases h
  | ok items =>
  rw [hload] at h
  simp only [exbind_ok] at h
  by_cases h0 : totalWeightDenom items = 0
  · rw [if_pos h0] at h; cases h
  rw [if_neg h0] at h
  cases hred : pyReduce snp items with
  | error e => rw [hred] at h; simp only [exbind_err] at h; cases h
  | ok merged =>
  rw [hred] at h
  simp only [exbind_ok] at h
  cases hagg : aggregate (totalWeightDenom items) items merged with
  | error e => rw [hagg] at h; simp only [exbind_err] at h; cases h
  | ok pr =>
  rw [hagg] at h
  simp only [exbind_ok] at h
  obtain ⟨fr, scores⟩ := pr
  exact emitOutput_ok_sorted h

/-! ## Counting variants in the joined rows -/

lemma idCol_eq_cells {f : Frame} {snp : String} (h : snp ∈ f.cols) :
    f.idCol snp = f.rows.map fun r => f.cellAt snp r := by
  obtain ⟨j, hj⟩ := colIdx_mem_some (l := f.cols) 0 h
  unfold Frame.idCol Frame.getCol Frame.cellAt Frame.colIdx
  rw [hj]
  simp

lemma beq_comm_val (a b : Val) : (a == b) = (b == a) := by
  show decide (a = b) = decide (b = a)
  exact decide_eq_decide.mpr ⟨Eq.symm, Eq.symm⟩

lemma joinEq_str (s : String) (w : Val) : (Val.str s).joinEq w = (w == Val.str s) :=
  beq_comm_val (Val.str s) w

lemma count_map_const {α : Type} (v c : Val) (l : List α) :
    (l.map fun _ => c).count v = if c == v then l.length else 0 := by
  rw [List.map_const', List.count_replicate]

lemma sum_ite_count {α : Type} (v : Val) (c : α → Val) (K : Nat) (l : List α) :
    (l.map fun r => if c r == v then K else 0).sum = K * (l.map c).count v := by
  induction l with
  | nil => simp
  | cons a l ih =>
      simp only [List.map_cons, List.sum_cons, ih, List.count_cons]
      by_cases h : c a == v
      · simp only [h, if_true]
        ring
      · simp only [h, if_false]
        simp only [Bool.false_eq_true, if_false, add_zero, zero_add]

lemma matchLen_eq_count {f2 : Frame} {snp : String} (hs2 : snp ∈ f2.cols) (s : String) :
    (f2.rows.filter fun r2 => (Val.str s).joinEq (f2.cellAt snp r2)).length =
      (f2.idCol snp).count (Val.str s) := by
  rw [idCol_eq_cells hs2]
  rw [show ((f2.rows.map fun r => f2.cellAt snp r).count (Val.str s)) =
    ((f2.rows.map fun r => f2.cellAt snp r).countP (· == Val.str s)) from rfl]
  rw [List.countP_eq_length_filter, List.filter_map, List.length_map]
  congr 1
  apply List.filter_congr
  intro r2 _
  simp only [Function.comp_apply]
  exact joinEq_str s (f2.cellAt snp r2)

lemma count_twoTraitRows_ids {f1 f2 : Frame} {snp p : String} (v : Val)
    (hs1 : snp ∈ f1.cols) (hs2 : snp ∈ f2.cols)
    (hstr1 : f1.strCol snp)
    (hnd1 : (f1.idCol snp).Nodup) (hnd2 : (f2.idCol snp).Nodup) :
    ((twoTraitRows f1 f2 snp p).map fun r => r.getD 0 (.num none)).count v =
      if v ∈ f1.idCol snp ∧ v ∈ f2.idCol snp then 1 else 0 := by
  have hcells1 := idCol_eq_cells hs1
  unfold twoTraitRows
  rw [List.map_flatten, List.count_flatten, List.map_map, List.map_map]
  have hfun : ((List.count v ∘ List.map fun r => r.getD 0 (Val.num none)) ∘ fun r1 =>
        (f2.rows.filter fun r2 => (f1.cellAt snp r1).joinEq (f2.cellAt snp r2)).map
          fun r2 => [f1.cellAt snp r1, f1.cellAt p r1, f2.cellAt p r2]) =
      fun r1 => if f1.cellAt snp r1 == v then
        (f2.rows.filter fun r2 => (f1.cellAt snp r1).joinEq (f2.cellAt snp r2)).length
      else 0 := by
    funext r1
    simp only [Function.comp_apply, List.map_map]
    rw [show ((fun r : List Val => r.getD 0 (Val.num none)) ∘ fun r2 =>
      [f1.cellAt snp r1, f1.cellAt p r1, f2.cellAt p r2]) = fun _ => f1.cellAt snp r1
      from rfl]
    exact count_map_const v _ _
  rw [hfun]
  by_cases hv1 : v ∈ f1.idCol snp
  · obtain ⟨s, rfl⟩ := hstr1 v hv1
    have hfun2 : (fun r1 => if f1.cellAt snp r1 == Val.str s then
          (f2.rows.filter fun r2 => (f1.cellAt snp r1).joinEq (f2.cellAt snp r2)).length
        else 0) =
        fun r1 => if f1.cellAt snp r1 == Val.str s then
          (f2.idCol snp).count (Val.str s) else 0 := by
      funext r1
      by_cases h : f1.cellAt snp r1 == Val.str s
      · rw [if_pos h, if_pos h, eq_of_beq h]
        exact matchLen_eq_count hs2 s
      · rw [if_neg h, if_neg h]
    rw [hfun2, sum_ite_count, ← hcells1, List.count_eq_one_of_mem hnd1 hv1, mul_one]
    by_cases hv2 : Val.str s ∈ f2.idCol snp
    · rw [List.count_eq_one_of_mem hnd2 hv2, if_pos ⟨hv1, hv2⟩]
    · rw [List.count_eq_zero_of_not_mem hv2, if_neg (fun hc => hv2 hc.2)]
  · rw [if_neg (fun hc => hv1 hc.1)]
    apply List.sum_eq_zero
    intro x hx
    obtain ⟨r1, hr1, rfl⟩ := List.mem_map.mp hx
    have hne : ¬(f1.cellAt snp r1 == v) := by
      intro h
      exact hv1 (hcells1 ▸ List.mem_map.mpr ⟨r1, hr1, (eq_of_beq h)⟩)
    rw [if_neg hne]

/-! ## Membership of joined rows, per-variant P lookup -/

lemma pOf_of_row {f : Frame} {snp p : String} {r : List Val} (hs : snp ∈ f.cols)
    (hr : r ∈ f.rows) (hnd : (f.idCol snp).Nodup) :
    f.pOf snp p (f.cellAt snp r) = (f.cellAt p r).toNum := by
  unfold Frame.pOf
  cases hfind : f.rows.find? (fun r2 => f.cellAt snp r2 == f.cellAt snp r) with
  | none =>
      have := List.find?_eq_none.mp hfind r hr
      simp at this
  | some r2 =>
      have hmem := List.mem_of_find?_eq_some hfind
      have hpred := List.find?_some hfind
      have heq : f.cellAt snp r2 = f.cellAt snp r := eq_of_beq hpred
      have hndm : ((f.rows.map fun r => f.cellAt snp r).Nodup) := by
        rw [← idCol_eq_cells hs]
        exact hnd
      have : r2 = r := List.inj_on_of_nodup_map hndm hmem hr heq
      rw [this]

lemma mem_twoTraitRows {f1 f2 : Frame} {snp p : String} {r : List Val}
    (hmem : r ∈ twoTraitRows f1 f2 snp p) :
    ∃ r1 ∈ f1.rows, ∃ r2 ∈ f2.rows,
      (f1.cellAt snp r1).joinEq (f2.cellAt snp r2) = true ∧
      r = [f1.cellAt snp r1, f1.cellAt p r1, f2.cellAt p r2] := by
  unfold twoTraitRows at hmem
  rw [List.mem_flatten] at hmem
  obtain ⟨g, hg, hrg⟩ := hmem
  rw [List.mem_map] at hg
  obtain ⟨r1, hr1, rfl⟩ := hg
  rw [List.mem_map] at hrg
  obtain ⟨r2, hr2, rfl⟩ := hrg
  have := List.mem_filter.mp hr2
  exact ⟨r1, hr1, r2, this.1, this.2, rfl⟩

/-! ## Concrete evaluations -/

lemma weight_fA : weightNumerator fA "P" = 2 := by
  unfold weightNumerator meanChi2
  rw [show chi2Col fA "P" = [some (((3:ℚ)):ℝ), some (((3:ℚ)):ℝ), some (((3:ℚ)):ℝ)] from rfl]
  simp only [skipnaMean, List.reduceOption, List.filterMap, pymax0, Option.map]
  norm_num

lemma weight_fB : weightNumerator fB "P" = 2 := by
  unfold weightNumerator meanChi2
  rw [show chi2Col fB "P" = [some (((3:ℚ)):ℝ), some (((3:ℚ)):ℝ)] from rfl]
  simp only [skipnaMean, List.reduceOption, List.filterMap, pymax0, Option.map]
  norm_num

lemma weight_fDup : weightNumerator fDup "P" = 2 := by
  unfold weightNumerator meanChi2
  rw [show chi2Col fDup "P" = [some (((3:ℚ)):ℝ), some (((3:ℚ)):ℝ)] from rfl]
  simp only [skipnaMean, List.reduceOption, List.filterMap, pymax0, Option.map]
  norm_num

lemma weight_fNaN : weightNumerator fNaN "P" = 2 := by
  unfold weightNumerator meanChi2
  rw [show chi2Col fNaN "P" = [some (((3:ℚ)):ℝ), some (((3:ℚ)):ℝ)] from rfl]
  simp only [skipnaMean, List.reduceOption, List.filterMap, pymax0, Option.map]
  norm_num

lemma weight_fZero : weightNumerator fZero "P" = 0 := by
  unfold weightNumerator meanChi2
  rw [show chi2Col fZero "P" = [some (((1:ℚ)):ℝ)] from rfl]
  simp only [skipnaMean, List.reduceOption, List.filterMap, pymax0, Option.map]
  norm_num

lemma weight_fC : weightNumerator fC "P" = 2 := by
  unfold weightNumerator meanChi2
  rw [show chi2Col fC "P" = [some (((3:ℚ)):ℝ), some (((3:ℚ)):ℝ)] from rfl]
  simp only [skipnaMean, List.reduceOption, List.filterMap, pymax0, Option.map]
  norm_num

lemma weight_g1 : weightNumerator g1 "P" = 2 := by
  unfold weightNumerator meanChi2
  rw [show chi2Col g1 "P" = [some (((3:ℚ)):ℝ)] from rfl]
  simp only [skipnaMean, List.reduceOption, List.filterMap, pymax0, Option.map]
  norm_num

lemma weight_g2 : weightNumerator g2 "P" = 2 := by
  unfold weightNumerator meanChi2
  rw [show chi2Col g2 "P" = [some (((3:ℚ)):ℝ)] from rfl]
  simp only [skipnaMean, List.reduceOption, List.filterMap, pymax0, Option.map]
  norm_num

lemma weight_g3 : weightNumerator g3 "P" = 2 := by
  unfold weightNumerator meanChi2
  rw [show chi2Col g3 "P" = [some (((3:ℚ)):ℝ)] from rfl]
  simp only [skipnaMean, List.reduceOption, List.filterMap, pymax0, Option.map]
  norm_num

lemma max_tenth : max (1/10 : ℚ) epsQ = 1/10 := by
  rw [max_eq_left]
  unfold epsQ
  norm_num

lemma scoreTerm_tenth (w : ℝ) : scoreTerm w (some (1/10)) = some w := by
  unfold scoreTerm
  simp only [Option.map_some', max_tenth]
  congr 1
  push_cast
  rw [show ((1:ℝ)/10) = 10⁻¹ by norm_num, Real.logb_inv,
    Real.logb_self_eq_one (by norm_num)]
  ring

lemma scoreTerm_none (w : ℝ) : scoreTerm w none = none := rfl

lemma scoreTerm_one (w : ℝ) : scoreTerm w (some 1) = some 0 := by
  unfold scoreTerm
  simp only [Option.map_some']
  rw [show max (1:ℚ) epsQ = 1 by
    rw [max_eq_left]
    unfold epsQ
    norm_num]
  simp [Real.logb_one]

lemma normW_half : normalizedWeight 2 (2 + 2) = (1/2 : ℝ) := by
  unfold normalizedWeight
  norm_num

lemma sortDesc_pair_eq (a b : Val) (x : ℝ) :
    sortDesc [(a, some x), (b, some x)] = [(a, some x), (b, some x)] := by
  unfold sortDesc
  simp [List.filter, List.insertionSort, List.orderedInsert]

lemma sortDesc_nan_pair (a b : Val) (x : ℝ) :
    sortDesc [(a, none), (b, some x)] = [(b, some x), (a, none)] := by
  unfold sortDesc
  simp [List.filter, List.insertionSort, List.orderedInsert]

lemma mainAB : main "P" "SNP" [fA, fB] =
    .ok [(.str "rs1", some 1), (.str "rs2", some 1)] := by
  rw [@main_two "P" "SNP" fA fB
    (by decide) (by decide) (by decide) (by decide) (by decide) (by decide)
    (by decide) (by decide) (by decide) (by decide) (by decide) (by decide)
    (by rw [weight_fA, weight_fB]; norm_num)]
  unfold twoTraitScores
  rw [weight_fA, weight_fB, normW_half]
  rw [show twoTraitRows fA fB "SNP" "P" =
    [[.str "rs1", .num (some (1/10)), .num (some (1/10))],
     [.str "rs2", .num (some (1/10)), .num (some (1/10))]] from rfl]
  simp only [List.map_cons, List.map_nil, List.getD_cons_zero, List.getD_cons_succ,
    Val.toNum, scoreTerm_tenth, optAdd, List.zip_cons_cons, List.zip_nil_right]
  norm_num
  rw [sortDesc_pair_eq]

lemma mainDupB : main "P" "SNP" [fDup, fB] =
    .ok [(.str "rs1", some 1), (.str "rs1", some 1)] := by
  rw [@main_two "P" "SNP" fDup fB
    (by decide) (by decide) (by decide) (by decide) (by decide) (by decide)
    (by decide) (by decide) (by decide) (by decide) (by decide) (by decide)
    (by rw [weight_fDup, weight_fB]; norm_num)]
  unfold twoTraitScores
  rw [weight_fDup, weight_fB, normW_half]
  rw [show twoTraitRows fDup fB "SNP" "P" =
    [[.str "rs1", .num (some (1/10)), .num (some (1/10))],
     [.str "rs1", .num (some (1/10)), .num (some (1/10))]] from rfl]
  simp only [List.map_cons, List.map_nil, List.getD_cons_zero, List.getD_cons_succ,
    Val.toNum, scoreTerm_tenth, optAdd, List.zip_cons_cons, List.zip_nil_right]
  norm_num
  rw [sortDesc_pair_eq]

lemma mainNaNB : main "P" "SNP" [fNaN, fB] =
    .ok [(.str "rs2", some 1), (.str "rs1", none)] := by
  rw [@main_two "P" "SNP" fNaN fB
    (by decide) (by decide) (by decide) (by decide) (by decide) (by decide)
    (by decide) (by decide) (by decide) (by decide) (by decide) (by decide)
    (by rw [weight_fNaN, weight_fB]; norm_num)]
  unfold twoTraitScores
  rw [weight_fNaN, weight_fB, normW_half]
  rw [show twoTraitRows fNaN fB "SNP" "P" =
    [[.str "rs1", .num none, .num (some (1/10))],
     [.str "rs2", .num (some (1/10)), .num (some (1/10))]] from rfl]
  simp only [List.map_cons, List.map_nil, List.getD_cons_zero, List.getD_cons_succ,
    Val.toNum, scoreTerm_tenth, scoreTerm_none, optAdd, List.zip_cons_cons,
    List.zip_nil_right]
  norm_num
  rw [sortDesc_nan_pair]

lemma mainCB : main "P" "SNP" [fC, fB] =
    .ok [(.str "rs2", some 1), (.str "rs1", some 1)] := by
  rw [@main_two "P" "SNP" fC fB
    (by decide) (by decide) (by decide) (by decide) (by decide) (by decide)
    (by decide) (by decide) (by decide) (by decide) (by decide) (by decide)
    (by rw [weight_fC, weight_fB]; norm_num)]
  unfold twoTraitScores
  rw [weight_fC, weight_fB, normW_half]
  rw [show twoTraitRows fC fB "SNP" "P" =
    [[.str "rs2", .num (some (1/10)), .num (some (1/10))],
     [.str "rs1", .num (some (1/10)), .num (some (1/10))]] from rfl]
  simp only [List.map_cons, List.map_nil, List.getD_cons_zero, List.getD_cons_succ,
    Val.toNum, scoreTerm_tenth, optAdd, List.zip_cons_cons, List.zip_nil_right]
  norm_num
  rw [sortDesc_pair_eq]

lemma main_df3 : main "P" "df" [g1, g2, g3] = .ok [(.str "rs1", some 0)] := by
  have hload : loadAll "P" "df" [g1, g2, g3] =
      .ok [loadedEntry g1 "df" "P", loadedEntry g2 "df" "P", loadedEntry g3 "df" "P"] := by
    rw [loadAll_map (by
      intro f hf
      rcases List.mem_cons.mp hf with rfl | hf2
      · exact ⟨by decide, by decide, by decide⟩
      · rcases List.mem_cons.mp hf2 with rfl | hf3
        · exact ⟨by decide, by decide, by decide⟩
        · rcases List.mem_cons.mp hf3 with rfl | hf4
          · exact ⟨by decide, by decide, by decide⟩
          · cases hf4) (by decide)]
    rfl
  unfold main
  rw [hload]
  simp only [exbind_ok]
  have htot : totalWeightDenom [loadedEntry g1 "df" "P", loadedEntry g2 "df" "P",
      loadedEntry g3 "df" "P"] = 6 := by
    simp only [totalWeightDenom, List.map_cons, List.map_nil, List.sum_cons, List.sum_nil]
    show weightNumerator g1 "P" + (weightNumerator g2 "P" + (weightNumerator g3 "P" + 0)) = 6
    rw [weight_g1, weight_g2, weight_g3]
    norm_num
  rw [htot, if_neg (by norm_num)]
  rw [show pyReduce "df" [loadedEntry g1 "df" "P", loadedEntry g2 "df" "P",
      loadedEntry g3 "df" "P"] = .ok (.frame gMerged) from rfl]
  simp only [exbind_ok, aggregate]
  rw [show List.replicate gMerged.rows.length ((some 0 : Option ℝ)) = [some 0] from rfl]
  have hcol1 : gMerged.getCol ("P_" ++ (loadedEntry g1 "df" "P").name) =
      some [Val.num (some 1)] := rfl
  have hcol2 : gMerged.getCol ("P_" ++ (loadedEntry g2 "df" "P").name) =
      some [Val.num (some 1)] := rfl
  have hcol3 : gMerged.getCol ("P_" ++ (loadedEntry g3 "df" "P").name) =
      some [Val.num (some 1)] := rfl
  rw [accumulate_cons_some _ _ _ hcol1 (by decide),
    accumulate_cons_some _ _ _ hcol2 (by decide),
    accumulate_cons_some _ _ _ hcol3 (by decide)]
  rw [show accumulate 6 gMerged [] = fun acc => Except.ok acc from rfl]
  have hw : ∀ e : Entry, scoreTerm (normalizedWeight e.weight_score 6)
      ((Val.num (some 1)).toNum) = some 0 := fun e => scoreTerm_one _
  simp only [List.map_cons, List.map_nil, hw, List.zipWith_cons_cons,
    List.zipWith_nil_right, optAdd]
  norm_num
  simp only [exmap_ok, exbind_ok]
  rw [show emitOutput "df" gMerged [some (0:ℝ)] =
    .ok (sortDesc [(Val.str "rs1", some 0)]) from rfl]
  rw [show sortDesc [(Val.str "rs1", some (0:ℝ))] = [(Val.str "rs1", some 0)] from rfl]

lemma totalWeightDenom_map (snp p : String) (inputs : List Frame) :
    totalWeightDenom (inputs.map fun f => loadedEntry f snp p) =
      (inputs.map fun f => weightNumerator f p).sum := by
  unfold totalWeightDenom
  rw [List.map_map]
  rfl

lemma sum_map_div (l : List ℝ) (T : ℝ) : (l.map (· / T)).sum = l.sum / T := by
  induction l with
  | nil => simp
  | cons a l ih => simp [ih, add_div]

/-! ## Claim theorems -/

/-- C1 (amended): in any completing run on a sane configuration whose trait
files have string-valued, duplicate-free identifier columns, the output
variant multiset is exactly the intersection of the traits' identifier
sets: a variant present in every trait appears exactly once, and a variant
absent from some trait does not appear. (The claim as stated omits the
duplicate-free proviso; with a duplicated identifier the run still
completes and emits one row per matching pair, see the counterexample.) -/
theorem c1_join_exact {p snp : String} {inputs : List Frame}
    {out : List (Val × Option ℝ)}
    (hrun : main p snp inputs = .ok out) (hsane : SaneCfg p snp inputs)
    (hstr : ∀ f ∈ inputs, f.strCol snp)
    (hnd : ∀ f ∈ inputs, (f.idCol snp).Nodup) :
    ∀ v : Val, (out.map Prod.fst).count v =
      if ∀ f ∈ inputs, v ∈ f.idCol snp then 1 else 0 := by
  obtain ⟨f1, f2, rfl, hp1, hp2, hs1, hs2, hst, htot, hpn1, hpn2, hout⟩ :=
    main_ok_shape hrun hsane
  intro v
  have hperm : List.Perm (out.map Prod.fst)
      ((((twoTraitRows f1 f2 snp p).map fun r => r.getD 0 (.num none)).zip
        (twoTraitScores f1 f2 snp p)).map Prod.fst) := by
    rw [hout]
    exact (sortDesc_perm _).map _
  rw [hperm.count_eq]
  have hlen : ((twoTraitRows f1 f2 snp p).map fun r => r.getD 0 (.num none)).length ≤
      (twoTraitScores f1 f2 snp p).length := by
    unfold twoTraitScores
    simp
  rw [List.map_fst_zip _ _ hlen,
    count_twoTraitRows_ids v hs1 hs2 (hstr f1 (by simp)) (hnd f1 (by simp))
      (hnd f2 (by simp))]
  refine if_congr ?_ rfl rfl
  constructor
  · rintro ⟨h1, h2⟩ g hg
    rcases List.mem_cons.mp hg with rfl | hg2
    · exact h1
    · rcases List.mem_cons.mp hg2 with rfl | hg3
      · exact h2
      · cases hg3
  · intro h
    exact ⟨h f1 (by simp), h f2 (by simp)⟩

/-- C1 counterexample: with a duplicated identifier in one trait the run
completes and the common variant `rs1` appears twice in the output, not
exactly once. -/
theorem c1_cex :
    main "P" "SNP" [fDup, fB] = .ok [(.str "rs1", some 1), (.str "rs1", some 1)] ∧
    (∀ f ∈ [fDup, fB], Val.str "rs1" ∈ f.idCol "SNP") ∧
    ([(Val.str "rs1", some (1 : ℝ)), (.str "rs1", some 1)].map Prod.fst).count
      (Val.str "rs1") = 2 :=
  ⟨mainDupB, by decide, by decide⟩

/-- C1 witness: in the completing run on `fA`, `fB` the shared variant `rs1`
appears exactly once and the variant `rs3` unique to `fA` is dropped. -/
theorem c1_witness :
    SaneCfg "P" "SNP" [fA, fB] ∧
    (([(Val.str "rs2", some (1 : ℝ)), (.str "rs1", some 1)].map Prod.fst).count
        (Val.str "rs1") = 1 ∧
      ([(Val.str "rs2", some (1 : ℝ)), (.str "rs1", some 1)].map Prod.fst).count
        (Val.str "rs3") = 0) := by
  have hsane : SaneCfg "P" "SNP" [fA, fB] := by
    refine ⟨by decide, by decide, by decide, ?_⟩
    intro f hf
    rcases List.mem_cons.mp hf with rfl | hf2
    · decide
    · rcases List.mem_cons.mp hf2 with rfl | hf3
      · decide
      · cases hf3
  have hstr : ∀ f ∈ [fA, fB], f.strCol "SNP" := by
    intro f hf v hv
    rcases List.mem_cons.mp hf with rfl | hf2
    · have hv2 : v ∈ [Val.str "rs1", Val.str "rs3", Val.str "rs2"] := hv
      rcases List.mem_cons.mp hv2 with rfl | hv3
      · exact ⟨"rs1", rfl⟩
      rcases List.mem_cons.mp hv3 with rfl | hv4
      · exact ⟨"rs3", rfl⟩
      rcases List.mem_cons.mp hv4 with rfl | hv5
      · exact ⟨"rs2", rfl⟩
      · cases hv5
    · rcases List.mem_cons.mp hf2 with rfl | hf3
      · have hv2 : v ∈ [Val.str "rs1", Val.str "rs2"] := hv
        rcases List.mem_cons.mp hv2 with rfl | hv3
        · exact ⟨"rs1", rfl⟩
        rcases List.mem_cons.mp hv3 with rfl | hv4
        · exact ⟨"rs2", rfl⟩
        · cases hv4
      · cases hf3
  have hnd : ∀ f ∈ [fA, fB], (f.idCol "SNP").Nodup := by
    intro f hf
    rcases List.mem_cons.mp hf with rfl | hf2
    · decide
    · rcases List.mem_cons.mp hf2 with rfl | hf3
      · decide
      · cases hf3
  have h := c1_join_exact mainAB hsane hstr hnd
  refine ⟨hsane, ?_, ?_⟩
  · have h1 := h (Val.str "rs1")
    rw [if_pos (by decide)] at h1
    exact h1
  · have h3 := h (Val.str "rs3")
    rw [if_neg (by decide)] at h3
    exact h3

/-- C3 (amended): under a sane configuration (identifier column distinct
from the P column and not literally named `df`, `E_score`, or a generated
`P_<trait>` label) the pipeline completes only on exactly two input files:
a completing sane run has exactly two inputs; a single valid file dies in
the aggregation loop with a `KeyError` on `P_<trait>` (the unreduced dict);
three or more valid files die in the merge step with a `KeyError` on `df`
(the reduce lambda indexes the already-merged DataFrame); and a two-file
run can complete. Without the sane-configuration proviso the claim is
false: with `--snp_col df` and equal-stem inputs a three-file run completes
(see the counterexample). -/
theorem c3_exactly_two_inputs :
    (∀ p snp inputs (out : List (Val × Option ℝ)),
      main p snp inputs = .ok out → SaneCfg p snp inputs → inputs.length = 2)
    ∧ (∀ p snp (f : Frame), p ∈ f.cols → snp ∈ f.cols → snp ≠ p →
        f.chi2ColNumeric p = true → weightNumerator f p ≠ 0 →
        main p snp [f] = .error (.keyError ["P_" ++ f.stem]))
    ∧ (∀ p snp inputs, 3 ≤ inputs.length → SaneCfg p snp inputs →
        (∀ f ∈ inputs, p ∈ f.cols ∧ snp ∈ f.cols ∧ f.chi2ColNumeric p = true) →
        (inputs.map fun f => weightNumerator f p).sum ≠ 0 →
        main p snp inputs = .error (.keyError ["df"]))
    ∧ (main "P" "SNP" [fA, fB]).isOk = true := by
  refine ⟨?_, ?_, ?_, ?_⟩
  · intro p snp inputs out hrun hsane
    obtain ⟨f1, f2, rfl, -⟩ := main_ok_shape hrun hsane
    rfl
  · intro p snp f hp hs hne hnum hw
    unfold main
    rw [loadAll_map (by
      intro g hg
      rcases List.mem_cons.mp hg with rfl | hg2
      · exact ⟨hp, hs, hnum⟩
      · cases hg2) hne]
    simp only [exbind_ok, List.map_cons, List.map_nil]
    have htotal : totalWeightDenom [loadedEntry f snp p] = weightNumerator f p := by
      simp [totalWeightDenom, loadedEntry]
    rw [htotal, if_neg hw,
      show pyReduce snp [loadedEntry f snp p] = .ok (.ent (loadedEntry f snp p)) from rfl]
    simp only [exbind_ok]
    rw [aggregate_ent_err]
    rfl
  · intro p snp inputs hlen hsane hmem htot
    obtain ⟨hne, hdf, hE, hP⟩ := hsane
    match inputs, hlen, hmem, htot, hP with
    | f1 :: f2 :: f3 :: rest, hlen, hmem, htot, hP =>
    unfold main
    rw [loadAll_map hmem hne]
    simp only [exbind_ok]
    rw [totalWeightDenom_map, if_neg htot]
    simp only [pyReduce, List.map_cons, List.foldlM_cons, mergeStep_ent]
    have h1 : snp ≠ "P_" ++ f1.stem := hP f1 (by simp)
    have h2 : snp ≠ "P_" ++ f2.stem := hP f2 (by simp)
    by_cases hst : f1.stem = f2.stem
    · rw [pdMerge_loaded_eqstem h1 hst, exmap_ok]
      simp only [exbind_ok, List.foldlM_cons]
      rw [mergeStep_frame_err snp _ (df_not_mem_suffixed hdf)]
      rfl
    · rw [pdMerge_loaded h1 h2 hst, exmap_ok]
      simp only [exbind_ok, List.foldlM_cons]
      rw [mergeStep_frame_err snp _ (df_not_mem_plain hdf)]
      rfl
  · rw [mainAB]
    rfl

/-- C3 witness: the one-file and three-file failure modes at concrete
inputs, and the two-file completion. -/
theorem c3_witness :
    main "P" "SNP" [fA] = .error (.keyError ["P_traitA"]) ∧
    main "P" "SNP" [fA, fB, fDup] = .error (.keyError ["df"]) := by
  constructor
  · have h := c3_exactly_two_inputs.2.1 "P" "SNP" fA (by decide) (by decide) (by decide)
      (by decide) (by rw [weight_fA]; norm_num)
    exact h
  · have hsane : SaneCfg "P" "SNP" [fA, fB, fDup] := by
      refine ⟨by decide, by decide, by decide, ?_⟩
      intro f hf
      rcases List.mem_cons.mp hf with rfl | hf2
      · decide
      · rcases List.mem_cons.mp hf2 with rfl | hf3
        · decide
        · rcases List.mem_cons.mp hf3 with rfl | hf4
          · decide
          · cases hf4
    have hmem : ∀ f ∈ [fA, fB, fDup],
        "P" ∈ f.cols ∧ "SNP" ∈ f.cols ∧ f.chi2ColNumeric "P" = true := by
      intro f hf
      rcases List.mem_cons.mp hf with rfl | hf2
      · exact ⟨by decide, by decide, by decide⟩
      · rcases List.mem_cons.mp hf2 with rfl | hf3
        · exact ⟨by decide, by decide, by decide⟩
        · rcases List.mem_cons.mp hf3 with rfl | hf4
          · exact ⟨by decide, by decide, by decide⟩
          · cases hf4
    exact c3_exactly_two_inputs.2.2.1 "P" "SNP" [fA, fB, fDup] (by decide) hsane hmem
      (by simp only [List.map_cons, List.map_nil, List.sum_cons, List.sum_nil]
          rw [weight_fA, weight_fB, weight_fDup]
          norm_num)

/-- C3 counterexample: with the identifier column literally named `df` and
three equal-stem input files the run COMPLETES, so three or more valid
inputs do not always fail: the accidental `df` column lookup in the reduce
lambda succeeds in that configuration. -/
theorem c3_cex :
    main "P" "df" [g1, g2, g3] = .ok [(.str "rs1", some 0)] ∧
    [g1, g2, g3].length = 3 :=
  ⟨main_df3, rfl⟩

/-- C4: if the total weight denominator is exactly zero, the run stops with
the degenerate-weights exit and produces no output; there is no fallback to
uniform weights. -/
theorem c4_zero_denominator {p snp : String} {inputs : List Frame}
    {items : List Entry}
    (hload : loadAll p snp inputs = .ok items)
    (h0 : totalWeightDenom items = 0) :
    main p snp inputs = .error .degenerateWeights := by
  unfold main
  rw [hload]
  simp only [exbind_ok]
  rw [if_pos h0]

/-- C4 witness: a trait with mean chi-square exactly 1 has weight numerator
0; alone it makes the denominator 0 and the run dies with the
degenerate-weights exit. -/
theorem c4_witness :
    loadAll "P" "SNP" [fZero] = .ok [loadedEntry fZero "SNP" "P"] ∧
    totalWeightDenom [loadedEntry fZero "SNP" "P"] = 0 ∧
    main "P" "SNP" [fZero] = .error .degenerateWeights := by
  have hl : loadAll "P" "SNP" [fZero] = .ok [loadedEntry fZero "SNP" "P"] := by
    rw [loadAll_map (by
      intro g hg
      rcases List.mem_cons.mp hg with rfl | hg2
      · exact ⟨by decide, by decide⟩
      · cases hg2) (by decide)]
    rfl
  have ht : totalWeightDenom [loadedEntry fZero "SNP" "P"] = 0 := by
    simp [totalWeightDenom, loadedEntry, weight_fZero]
  exact ⟨hl, ht, c4_zero_denominator hl ht⟩

/-- C5 (amended): every completing run emits its rows in weakly descending
score order with missing (NaN) scores last. Ties are NOT broken by variant
identifier: the code sorts on the score column alone, and equal-score rows
keep their pre-sort order from the merged table, which need not be
ascending identifier order (see the counterexample). -/
theorem c5_sorted_descending (p snp : String) (inputs : List Frame)
    (out : List (Val × Option ℝ)) (hrun : main p snp inputs = .ok out) :
    out.Pairwise scoreGE :=
  main_ok_sorted hrun

/-- C5 witness: the concrete completing run is sorted descending. -/
theorem c5_witness :
    main "P" "SNP" [fA, fB] = .ok [(.str "rs1", some 1), (.str "rs2", some 1)] ∧
    ([(Val.str "rs1", some (1 : ℝ)), (.str "rs2", some 1)]).Pairwise scoreGE :=
  ⟨mainAB, by
    have h := c5_sorted_descending "P" "SNP" [fA, fB] _ mainAB
    exact h⟩

/-- C5 counterexample: a completing run whose left file lists `rs2` before
`rs1` emits the two equal-score variants as `rs2` before `rs1` — their
pre-sort merged order, which is descending, not ascending, lexical order of
the identifiers. -/
theorem c5_cex :
    main "P" "SNP" [fC, fB] = .ok [(.str "rs2", some 1), (.str "rs1", some 1)] ∧
    "rs1".data < "rs2".data :=
  ⟨mainCB, by decide⟩

/-- C6 (amended): the loader performs no duplicate-identifier check at all:
it succeeds exactly when the P-value column exists and the chi-square
source column (`CHI2` when present, else the P column) has a numeric
dtype. Its success never depends on the identifier column, so a trait file
with a repeated variant identifier and well-typed columns loads without
any error and flows into the join. -/
theorem c6_no_duplicate_check (f : Frame) (p_col : String) :
    (load_and_calculate_weight f p_col).isOk = true ↔
      p_col ∈ f.cols ∧ f.chi2ColNumeric p_col = true := by
  constructor
  · intro h
    by_cases hp : p_col ∈ f.cols
    · by_cases hnum : f.chi2ColNumeric p_col = true
      · exact ⟨hp, hnum⟩
      · rw [load_err_nonnum hp (Bool.eq_false_iff.mpr hnum)] at h
        simp [Except.isOk, Except.toBool] at h
    · rw [load_err hp] at h
      simp [Except.isOk, Except.toBool] at h
  · rintro ⟨hp, hnum⟩
    rw [load_ok hp hnum]
    rfl

/-- C6 counterexample: the loader accepts the duplicated-identifier file
`fDup` and returns its weight, instead of failing. -/
theorem c6_cex :
    load_and_calculate_weight fDup "P" = .ok ("traitD", fDup, 2) := by
  rw [load_ok (by decide) (by decide), weight_fDup]
  rfl

/-- C7: whenever the total weight denominator is positive, each normalized
weight is the weight numerator divided by the denominator, and the
normalized weights sum to exactly 1 in real arithmetic. -/
theorem c7_weights_normalize (items : List Entry)
    (hpos : 0 < totalWeightDenom items) :
    (∀ e ∈ items, normalizedWeight e.weight_score (totalWeightDenom items) =
      e.weight_score / totalWeightDenom items) ∧
    (items.map fun e =>
      normalizedWeight e.weight_score (totalWeightDenom items)).sum = 1 := by
  refine ⟨fun e _ => rfl, ?_⟩
  have hmap : (items.map fun e => normalizedWeight e.weight_score (totalWeightDenom items)) =
      (items.map (·.weight_score)).map (· / totalWeightDenom items) := by
    rw [List.map_map]
    rfl
  rw [hmap, sum_map_div]
  exact div_self hpos.ne'

/-- C7 witness: for the two concrete traits the weights are 2/4 each and sum
to exactly 1. -/
theorem c7_witness :
    0 < totalWeightDenom [loadedEntry fA "SNP" "P", loadedEntry fB "SNP" "P"] ∧
    ([loadedEntry fA "SNP" "P", loadedEntry fB "SNP" "P"].map fun e =>
      normalizedWeight e.weight_score
        (totalWeightDenom [loadedEntry fA "SNP" "P", loadedEntry fB "SNP" "P"])).sum = 1 := by
  have hpos : 0 < totalWeightDenom [loadedEntry fA "SNP" "P", loadedEntry fB "SNP" "P"] := by
    simp only [totalWeightDenom, List.map_cons, List.map_nil, List.sum_cons, List.sum_nil]
    show (0:ℝ) < (loadedEntry fA "SNP" "P").weight_score +
      ((loadedEntry fB "SNP" "P").weight_score + 0)
    rw [show (loadedEntry fA "SNP" "P").weight_score = weightNumerator fA "P" from rfl,
      show (loadedEntry fB "SNP" "P").weight_score = weightNumerator fB "P" from rfl,
      weight_fA, weight_fB]
    norm_num
  exact ⟨hpos, (c7_weights_normalize _ hpos).2⟩

/-- C9 (amended): a missing required column is always fatal with no output
and a non-zero exit, but only a missing P-value column produces an error
naming both the offending file and the column (the loader's ValueError);
for a file that passes loading (its chi-square source column is numeric), a
missing variant-identifier column surfaces later as an uncaught pandas
`KeyError` that names the column but NOT the file. -/
theorem c9_missing_column :
    (∀ p snp inputs (out : List (Val × Option ℝ)), main p snp inputs = .ok out →
      ∀ f ∈ inputs, p ∈ f.cols ∧ snp ∈ f.cols)
    ∧ (∀ p snp (f : Frame) (rest : List Frame), p ∉ f.cols →
        main p snp (f :: rest) = .error (.schemaError f.path p) ∧
        Err.namesFile (.schemaError f.path p) = some f.path ∧
        Err.namesCols (.schemaError f.path p) = [p])
    ∧ (∀ p snp (f : Frame) (rest : List Frame), p ∈ f.cols →
        f.chi2ColNumeric p = true → snp ∉ f.cols →
        main p snp (f :: rest) = .error (.keyError [snp]) ∧
        Err.namesFile (.keyError [snp]) = none ∧
        Err.namesCols (.keyError [snp]) = [snp]) := by
  refine ⟨?_, ?_, ?_⟩
  · intro p snp inputs out hrun
    unfold main at hrun
    cases hload : loadAll p snp inputs with
    | error e => rw [hload] at hrun; simp only [exbind_err] at hrun; cases hrun
    | ok items =>
        exact fun f hf => ⟨(loadAll_ok_mem hload f hf).1, (loadAll_ok_mem hload f hf).2.1⟩
  · intro p snp f rest hp
    refine ⟨?_, rfl, rfl⟩
    unfold main
    rw [loadAll, load_err hp]
    rfl
  · intro p snp f rest hp hnum hs
    refine ⟨?_, rfl, rfl⟩
    unfold main
    rw [loadAll, load_ok hp hnum]
    simp only [exbind_ok]
    rw [project_pair_err hs hp]
    rfl

/-- C9 counterexample: for an input missing only the identifier column the
run fails with a `KeyError` that names the column but no file, refuting the
claim that every missing-column error names the offending file. -/
theorem c9_cex :
    main "P" "SNP" [fNoSNP] = .error (.keyError ["SNP"]) ∧
    Err.namesFile (.keyError ["SNP"]) = none := by
  refine ⟨?_, rfl⟩
  unfold main
  rw [loadAll, load_ok (by decide) (by decide)]
  simp only [exbind_ok]
  rw [project_pair_err (by decide) (by decide)]
  rfl

/-- C9 witness: the two failure modes at concrete inputs, and a completing
run whose files do have both columns. -/
theorem c9_witness :
    main "P" "SNP" [fNoP] = .error (.schemaError "data/noP.txt" "P") ∧
    Err.namesFile (.schemaError "data/noP.txt" "P") = some "data/noP.txt" ∧
    ("P" ∈ fA.cols ∧ "SNP" ∈ fA.cols) := by
  have hb := c9_missing_column.2.1 "P" "SNP" fNoP [] (by decide)
  refine ⟨hb.1, hb.2.1, ?_⟩
  exact c9_missing_column.1 "P" "SNP" [fA, fB] _ mainAB fA (by simp)

/-- C10 (amended): the two halves of the claim behave differently. A
NON-NUMERIC P-value cell is indeed fatal: with no CHI2 column the loader
itself aborts (`chi2.isf` raises on the object-dtype column and the handler
exits naming the file), and with a CHI2 column the object-dtype P column
reaches the aggregation loop, where `np.maximum` / `np.log10` raise an
uncaught `TypeError`. A MISSING (NaN) P-value, however, is NOT a failure:
the loader succeeds whenever its chi-square source column is numeric, the
skipna mean silently drops the missing entry from the mean chi-square, and
(see the counterexample) the run completes with the affected variant
carried through with a missing score. -/
theorem c10_missing_vs_nonnumeric :
    (∀ (f : Frame) (p_col : String), p_col ∈ f.cols → "CHI2" ∉ f.cols →
      f.numColB p_col = false →
      load_and_calculate_weight f p_col = .error (.typeError f.path))
    ∧ (∀ (total : ℝ) (fr : Frame) (e : Entry) (es : List Entry)
        (acc : List (Option ℝ)) (col : List Val),
        fr.getCol ("P_" ++ e.name) = some col →
        e.df.numColB ("P_" ++ e.name) = false →
        accumulate total fr (e :: es) acc = .error (.typeError ("P_" ++ e.name)))
    ∧ (∀ (f : Frame) (p_col : String), p_col ∈ f.cols →
        f.chi2ColNumeric p_col = true →
        (load_and_calculate_weight f p_col).isOk = true)
    ∧ (∀ xs : List (Option ℝ), skipnaMean (none :: xs) = skipnaMean xs) := by
  refine ⟨?_, ?_, ?_, ?_⟩
  · intro f p hp hc hnum
    refine load_err_nonnum hp ?_
    unfold Frame.chi2ColNumeric
    rw [if_neg hc]
    exact hnum
  · intro total fr e es acc col hcol hnum
    exact accumulate_cons_nonnum total es acc hcol hnum
  · intro f p hp hnum
    rw [load_ok hp hnum]
    rfl
  · intro xs
    rfl

/-- C10 counterexample: a run whose first trait has a missing P-value for
`rs1` completes successfully, and `rs1` is still present in the output with
a missing score: the claimed hard failure does not happen. -/
theorem c10_cex :
    main "P" "SNP" [fNaN, fB] = .ok [(.str "rs2", some 1), (.str "rs1", none)] :=
  mainNaNB

/-- C10 witness: the non-numeric-P file aborts at load, an object-dtype P
column aborts the aggregation loop, the missing-P file loads fine, and the
skipna mean ignores a missing entry. -/
theorem c10_witness :
    (load_and_calculate_weight fStr "P" = .error (.typeError "data/traitS.txt") ∧
      accumulate 1 fStrP [⟨"traitS", fStrP, 1⟩] [some 0] =
        .error (.typeError "P_traitS")) ∧
    ((load_and_calculate_weight fNaN "P").isOk = true ∧
      skipnaMean [none, some 1] = skipnaMean [some 1]) := by
  refine ⟨⟨?_, ?_⟩, ?_, ?_⟩
  · exact c10_missing_vs_nonnumeric.1 fStr "P" (by decide) (by decide) (by decide)
  · exact c10_missing_vs_nonnumeric.2.1 1 fStrP ⟨"traitS", fStrP, 1⟩ [] [some 0]
      [Val.str "bad"] rfl (by decide)
  · exact c10_missing_vs_nonnumeric.2.2.1 fNaN "P" (by decide) (by decide)
  · exact c10_missing_vs_nonnumeric.2.2.2 [some 1]

lemma saneAB : SaneCfg "P" "SNP" [fA, fB] := by
  refine ⟨by decide, by decide, by decide, ?_⟩
  intro f hf
  rcases List.mem_cons.mp hf with rfl | hf2
  · decide
  · rcases List.mem_cons.mp hf2 with rfl | hf3
    · decide
    · cases hf3

lemma strAB : ∀ f ∈ [fA, fB], f.strCol "SNP" := by
  intro f hf v hv
  rcases List.mem_cons.mp hf with rfl | hf2
  · have hv2 : v ∈ [Val.str "rs1", Val.str "rs3", Val.str "rs2"] := hv
    rcases List.mem_cons.mp hv2 with rfl | hv3
    · exact ⟨"rs1", rfl⟩
    rcases List.mem_cons.mp hv3 with rfl | hv4
    · exact ⟨"rs3", rfl⟩
    rcases List.mem_cons.mp hv4 with rfl | hv5
    · exact ⟨"rs2", rfl⟩
    · cases hv5
  · rcases List.mem_cons.mp hf2 with rfl | hf3
    · have hv2 : v ∈ [Val.str "rs1", Val.str "rs2"] := hv
      rcases List.mem_cons.mp hv2 with rfl | hv3
      · exact ⟨"rs1", rfl⟩
      rcases List.mem_cons.mp hv3 with rfl | hv4
      · exact ⟨"rs2", rfl⟩
      · cases hv4
    · cases hf3

lemma ndAB : ∀ f ∈ [fA, fB], (f.idCol "SNP").Nodup := by
  intro f hf
  rcases List.mem_cons.mp hf with rfl | hf2
  · decide
  · rcases List.mem_cons.mp hf2 with rfl | hf3
    · decide
    · cases hf3

/-- C2 (amended): in a completing run under a sane configuration (identifier
column distinct from the P column and not literally named `df`, `E_score`,
or a generated `P_<trait>` label) with duplicate-free string identifiers,
the score of every emitted variant is the sum over the two traits of the
normalized weight times `-log10(max(P, 1e-300))` of that trait's recorded
P-value for the variant; consequently a P-value of exactly 1 contributes a
zero term, and for any P-value at or above the floor the floor leaves the
term unchanged. Without the configuration proviso the formula is false: in
the completing three-file `df` run every loop iteration reads the last
trait's P column (see the counterexample). -/
theorem c2_score_formula {p snp : String} {inputs : List Frame}
    {out : List (Val × Option ℝ)}
    (hrun : main p snp inputs = .ok out) (hsane : SaneCfg p snp inputs)
    (hstr : ∀ f ∈ inputs, f.strCol snp)
    (hnd : ∀ f ∈ inputs, (f.idCol snp).Nodup) :
    (∃ f1 f2, inputs = [f1, f2] ∧
      ∀ pr ∈ out, ∀ q1 q2 : ℚ,
        f1.pOf snp p pr.1 = some q1 → f2.pOf snp p pr.1 = some q2 →
        pr.2 = some
          (normalizedWeight (weightNumerator f1 p)
              (weightNumerator f1 p + weightNumerator f2 p) *
              -Real.logb 10 ((max q1 epsQ : ℚ) : ℝ) +
            normalizedWeight (weightNumerator f2 p)
              (weightNumerator f1 p + weightNumerator f2 p) *
              -Real.logb 10 ((max q2 epsQ : ℚ) : ℝ)))
    ∧ (∀ w : ℝ, scoreTerm w (some 1) = some 0)
    ∧ (∀ (w : ℝ) (q : ℚ), epsQ ≤ q →
        scoreTerm w (some q) = some (-Real.logb 10 (q : ℝ) * w)) := by
  refine ⟨?_, ?_, ?_⟩
  · obtain ⟨f1, f2, rfl, hp1, hp2, hs1, hs2, hstm, htot, hn1, hn2, hout⟩ :=
      main_ok_shape hrun hsane
    refine ⟨f1, f2, rfl, ?_⟩
    intro pr hpr q1 q2 hq1 hq2
    have hmem : pr ∈ (((twoTraitRows f1 f2 snp p).map fun r => r.getD 0 (.num none)).zip
        (twoTraitScores f1 f2 snp p)) := by
      rw [hout] at hpr
      exact (sortDesc_perm _).mem_iff.mp hpr
    unfold twoTraitScores at hmem
    rw [List.zip_map'] at hmem
    obtain ⟨r, hr, heq⟩ := List.mem_map.mp hmem
    obtain ⟨r1, hr1, r2, hr2, hjoin, rfl⟩ := mem_twoTraitRows hr
    have hpr1 : pr.1 = f1.cellAt snp r1 := by
      rw [← heq]
      rfl
    have hpr2 : pr.2 = optAdd
        (optAdd (some 0)
          (scoreTerm (normalizedWeight (weightNumerator f1 p)
            (weightNumerator f1 p + weightNumerator f2 p)) (f1.cellAt p r1).toNum))
        (scoreTerm (normalizedWeight (weightNumerator f2 p)
          (weightNumerator f1 p + weightNumerator f2 p)) (f2.cellAt p r2).toNum) := by
      rw [← heq]
      rfl
    obtain ⟨s, hs⟩ : ∃ s, f1.cellAt snp r1 = Val.str s := by
      apply hstr f1 (by simp)
      show f1.cellAt snp r1 ∈ f1.idCol snp
      rw [idCol_eq_cells hs1]
      exact List.mem_map.mpr ⟨r1, hr1, rfl⟩
    have hc2 : f2.cellAt snp r2 = f1.cellAt snp r1 := by
      rw [hs] at hjoin ⊢
      rw [joinEq_str] at hjoin
      exact eq_of_beq hjoin
    have hq1n : (f1.cellAt p r1).toNum = some q1 := by
      rw [← pOf_of_row hs1 hr1 (hnd f1 (by simp)), ← hpr1]
      exact hq1
    have hq2n : (f2.cellAt p r2).toNum = some q2 := by
      rw [← pOf_of_row hs2 hr2 (hnd f2 (by simp)), hc2, ← hpr1]
      exact hq2
    rw [hpr2, hq1n, hq2n]
    unfold scoreTerm optAdd
    simp only [Option.map_some']
    congr 1
    ring
  · intro w
    unfold scoreTerm
    simp only [Option.map_some']
    congr 1
    rw [max_eq_left (by unfold epsQ; norm_num)]
    push_cast
    rw [Real.logb_one]
    ring
  · intro w q hq
    unfold scoreTerm
    simp only [Option.map_some']
    rw [max_eq_left hq]

/-- C2 witness: the formula consequences at concrete weights and P-values,
under the concrete completing run. -/
theorem c2_witness :
    SaneCfg "P" "SNP" [fA, fB] ∧
    scoreTerm (1/2 : ℝ) (some 1) = some 0 ∧
    scoreTerm (1/2 : ℝ) (some (1/2)) =
      some (-Real.logb 10 ((1/2 : ℚ) : ℝ) * (1/2)) := by
  have h := c2_score_formula mainAB saneAB strAB ndAB
  exact ⟨saneAB, h.2.1 (1/2), h.2.2 (1/2) (1/2) (by unfold epsQ; norm_num)⟩

/-- C2 counterexample: the three-file `df` run completes with score 0 for
`rs1` (every loop iteration reads the LAST trait's P column, which is 1),
while the claimed per-trait weighted sum of `-log10(max(P, eps))` terms
over the three traits equals 2/3 (the first two traits have P = 1/10). -/
theorem c2_cex :
    main "P" "df" [g1, g2, g3] = .ok [(.str "rs1", some 0)] ∧
    normalizedWeight (weightNumerator g1 "P")
        (weightNumerator g1 "P" + weightNumerator g2 "P" + weightNumerator g3 "P") *
        -Real.logb 10 ((max (1/10 : ℚ) epsQ : ℚ) : ℝ) +
      normalizedWeight (weightNumerator g2 "P")
        (weightNumerator g1 "P" + weightNumerator g2 "P" + weightNumerator g3 "P") *
        -Real.logb 10 ((max (1/10 : ℚ) epsQ : ℚ) : ℝ) +
      normalizedWeight (weightNumerator g3 "P")
        (weightNumerator g1 "P" + weightNumerator g2 "P" + weightNumerator g3 "P") *
        -Real.logb 10 ((max (1 : ℚ) epsQ : ℚ) : ℝ) = 2/3 ∧
    (0 : ℝ) ≠ 2/3 := by
  refine ⟨main_df3, ?_, by norm_num⟩
  rw [weight_g1, weight_g2, weight_g3, max_tenth]
  rw [show max (1:ℚ) epsQ = 1 by
    rw [max_eq_left]
    unfold epsQ
    norm_num]
  unfold normalizedWeight
  push_cast
  rw [show ((1:ℝ)/10) = 10⁻¹ by norm_num, Real.logb_inv,
    Real.logb_self_eq_one (by norm_num), Real.logb_one]
  norm_num

/-! ## The chi-square survival function and its inverse

The chi-square distribution with one degree of freedom is the gamma
distribution with shape 1/2 and rate 1/2. `chiSqSurvival c = P(X > c)` and
`chiSqISF` is its inverse on (0, 1], the mathematical content of
`scipy.stats.chi2.isf(p, 1)`. -/

lemma chisq_prob : MeasureTheory.IsProbabilityMeasure
    (ProbabilityTheory.gammaMeasure (1/2) (1/2)) :=
  ProbabilityTheory.isProbabilityMeasureGamma (by norm_num) (by norm_num)

lemma chisq_atom (x : ℝ) : ProbabilityTheory.gammaMeasure (1/2) (1/2) {x} = 0 := by
  rw [ProbabilityTheory.gammaMeasure,
    MeasureTheory.withDensity_apply _ (measurableSet_singleton x)]
  rw [MeasureTheory.Measure.restrict_eq_zero.mpr Real.volume_singleton,
    MeasureTheory.lintegral_zero_measure]

lemma chisq_measure_ne_top (s : Set ℝ) :
    ProbabilityTheory.gammaMeasure (1/2) (1/2) s ≠ ⊤ := by
  have := chisq_prob
  exact MeasureTheory.measure_ne_top _ s

lemma chiSqSurvival_eq_one_sub_cdf (c : ℝ) :
    chiSqSurvival c = 1 - ProbabilityTheory.cdf
      (ProbabilityTheory.gammaMeasure (1/2) (1/2)) c := by
  have := chisq_prob
  have hadd : ProbabilityTheory.gammaMeasure (1/2) (1/2) (Set.Iic c) +
      ProbabilityTheory.gammaMeasure (1/2) (1/2) (Set.Ioi c) =
      ProbabilityTheory.gammaMeasure (1/2) (1/2) Set.univ := by
    rw [← Set.compl_Iic]
    exact MeasureTheory.measure_add_measure_compl measurableSet_Iic
  rw [MeasureTheory.measure_univ] at hadd
  have htr := congrArg ENNReal.toReal hadd
  rw [ENNReal.toReal_add (chisq_measure_ne_top _) (chisq_measure_ne_top _),
    ENNReal.one_toReal] at htr
  rw [chiSqSurvival, ProbabilityTheory.cdf_eq_toReal]
  linarith

lemma chisq_cdf_continuous :
    Continuous (ProbabilityTheory.cdf (ProbabilityTheory.gammaMeasure (1/2) (1/2))) := by
  rw [continuous_iff_continuousAt]
  intro x
  have hmono := ProbabilityTheory.monotone_cdf
    (μ := ProbabilityTheory.gammaMeasure (1/2) (1/2))
  rw [hmono.continuousAt_iff_leftLim_eq_rightLim]
  have hright := (ProbabilityTheory.cdf
    (ProbabilityTheory.gammaMeasure (1/2) (1/2))).rightLim_eq x
  have hm := (ProbabilityTheory.cdf
    (ProbabilityTheory.gammaMeasure (1/2) (1/2))).measure_singleton x
  have := chisq_prob
  rw [ProbabilityTheory.measure_cdf, chisq_atom x] at hm
  have hle : ProbabilityTheory.cdf (ProbabilityTheory.gammaMeasure (1/2) (1/2)) x -
      Function.leftLim (ProbabilityTheory.cdf
        (ProbabilityTheory.gammaMeasure (1/2) (1/2))) x ≤ 0 :=
    ENNReal.ofReal_eq_zero.mp hm.symm
  have hge : Function.leftLim (ProbabilityTheory.cdf
      (ProbabilityTheory.gammaMeasure (1/2) (1/2))) x ≤
      ProbabilityTheory.cdf (ProbabilityTheory.gammaMeasure (1/2) (1/2)) x :=
    hmono.leftLim_le le_rfl
  rw [hright]
  linarith

lemma chiSqSurvival_continuous : Continuous chiSqSurvival := by
  have : chiSqSurvival = fun c => 1 - ProbabilityTheory.cdf
      (ProbabilityTheory.gammaMeasure (1/2) (1/2)) c :=
    funext chiSqSurvival_eq_one_sub_cdf
  rw [this]
  exact continuous_const.sub chisq_cdf_continuous

lemma chiSqSurvival_antitone : Antitone chiSqSurvival := by
  intro a b hab
  unfold chiSqSurvival
  exact ENNReal.toReal_mono (chisq_measure_ne_top _)
    (MeasureTheory.measure_mono (Set.Ioi_subset_Ioi hab))

lemma chiSqSurvival_tendsto_atTop : Filter.Tendsto chiSqSurvival Filter.atTop (nhds 0) := by
  have : chiSqSurvival = fun c => 1 - ProbabilityTheory.cdf
      (ProbabilityTheory.gammaMeasure (1/2) (1/2)) c :=
    funext chiSqSurvival_eq_one_sub_cdf
  rw [this]
  have := chisq_prob
  have h := ProbabilityTheory.tendsto_cdf_atTop
    (μ := ProbabilityTheory.gammaMeasure (1/2) (1/2))
  have h2 := h.const_sub (1:ℝ)
  simpa using h2

lemma chisq_Iic_zero : ProbabilityTheory.gammaMeasure (1/2) (1/2) (Set.Iic 0) = 0 := by
  have hsplit : (Set.Iic (0:ℝ)) = Set.Iio 0 ∪ {0} := by
    rw [Set.Iio_union_right]
  rw [hsplit]
  apply MeasureTheory.measure_union_null
  · rw [ProbabilityTheory.gammaMeasure,
      MeasureTheory.withDensity_apply _ measurableSet_Iio]
    exact ProbabilityTheory.lintegral_gammaPDF_of_nonpos le_rfl
  · exact chisq_atom 0

lemma chiSqSurvival_zero : chiSqSurvival 0 = 1 := by
  have := chisq_prob
  rw [chiSqSurvival_eq_one_sub_cdf, ProbabilityTheory.cdf_eq_toReal, chisq_Iic_zero]
  simp

lemma chisq_Ioc_pos {a b : ℝ} (ha : 0 ≤ a) (hab : a < b) :
    0 < ProbabilityTheory.gammaMeasure (1/2) (1/2) (Set.Ioc a b) := by
  rw [ProbabilityTheory.gammaMeasure,
    MeasureTheory.withDensity_apply _ measurableSet_Ioc]
  have hmeas : Measurable (ProbabilityTheory.gammaPDF (1/2) (1/2)) :=
    (ProbabilityTheory.measurable_gammaPDFReal _ _).ennreal_ofReal
  rw [MeasureTheory.lintegral_pos_iff_support hmeas]
  have hsub : Set.Ioo a b ⊆
      Function.support (ProbabilityTheory.gammaPDF (1/2) (1/2)) ∩ Set.Ioc a b := by
    intro x hx
    refine ⟨?_, hx.1, hx.2.le⟩
    have hxpos : 0 < x := lt_of_le_of_lt ha hx.1
    have hpdf : 0 < ProbabilityTheory.gammaPDFReal (1/2) (1/2) x :=
      ProbabilityTheory.gammaPDFReal_pos (by norm_num) (by norm_num) hxpos
    simp only [Function.mem_support, ProbabilityTheory.gammaPDF]
    rw [ne_eq, ENNReal.ofReal_eq_zero]
    exact not_le.mpr hpdf
  calc (0:ENNReal) < MeasureTheory.volume (Set.Ioo a b) := by
        rw [Real.volume_Ioo]
        exact ENNReal.ofReal_pos.mpr (by linarith)
    _ ≤ MeasureTheory.volume
        (Function.support (ProbabilityTheory.gammaPDF (1/2) (1/2)) ∩ Set.Ioc a b) :=
        MeasureTheory.measure_mono hsub
    _ = (MeasureTheory.volume.restrict (Set.Ioc a b))
        (Function.support (ProbabilityTheory.gammaPDF (1/2) (1/2))) := by
        rw [MeasureTheory.Measure.restrict_apply (measurableSet_support hmeas)]

lemma chiSqSurvival_strictOn {a b : ℝ} (ha : 0 ≤ a) (hab : a < b) :
    chiSqSurvival b < chiSqSurvival a := by
  unfold chiSqSurvival
  have hsplit : Set.Ioi a = Set.Ioc a b ∪ Set.Ioi b :=
    (Set.Ioc_union_Ioi_eq_Ioi hab.le).symm
  have hdisj : Disjoint (Set.Ioc a b) (Set.Ioi b) := by
    rw [Set.disjoint_left]
    intro x hx hx2
    exact absurd hx.2 (not_le.mpr hx2)
  have hadd : ProbabilityTheory.gammaMeasure (1/2) (1/2) (Set.Ioi a) =
      ProbabilityTheory.gammaMeasure (1/2) (1/2) (Set.Ioc a b) +
      ProbabilityTheory.gammaMeasure (1/2) (1/2) (Set.Ioi b) := by
    rw [hsplit]
    exact MeasureTheory.measure_union hdisj measurableSet_Ioi
  rw [hadd, ENNReal.toReal_add (chisq_measure_ne_top _) (chisq_measure_ne_top _)]
  have hpos : 0 < (ProbabilityTheory.gammaMeasure (1/2) (1/2) (Set.Ioc a b)).toReal :=
    ENNReal.toReal_pos (chisq_Ioc_pos ha hab).ne' (chisq_measure_ne_top _)
  linarith

lemma chiSqSurvival_exists_eq {p : ℝ} (h0 : 0 < p) (h1 : p ≤ 1) :
    ∃ c, 0 ≤ c ∧ chiSqSurvival c = p := by
  have hev : ∀ᶠ x in Filter.atTop, chiSqSurvival x < p :=
    chiSqSurvival_tendsto_atTop.eventually_lt_const h0
  obtain ⟨M, hM⟩ := (hev.and (Filter.eventually_ge_atTop (0:ℝ))).exists
  have hicc : p ∈ Set.Icc (chiSqSurvival M) (chiSqSurvival 0) := by
    constructor
    · exact hM.1.le
    · rw [chiSqSurvival_zero]
      exact h1
  have hiv := intermediate_value_Icc' hM.2 chiSqSurvival_continuous.continuousOn hicc
  obtain ⟨c, hc, hceq⟩ := hiv
  exact ⟨c, hc.1, hceq⟩

lemma chiSqISF_nonneg (p : ℝ) (hne : ∃ c, 0 ≤ c ∧ chiSqSurvival c ≤ p) :
    0 ≤ chiSqISF p := by
  unfold chiSqISF
  exact le_csInf hne (fun x hx => hx.1)

lemma chiSqSurvival_chiSqISF {p : ℝ} (h0 : 0 < p) (h1 : p ≤ 1) :
    chiSqSurvival (chiSqISF p) = p := by
  obtain ⟨c0, hc0, hceq⟩ := chiSqSurvival_exists_eq h0 h1
  have hne : ∃ c, 0 ≤ c ∧ chiSqSurvival c ≤ p := ⟨c0, hc0, hceq.le⟩
  have hneS : {c : ℝ | 0 ≤ c ∧ chiSqSurvival c ≤ p}.Nonempty := hne
  have hbdd : BddBelow {c : ℝ | 0 ≤ c ∧ chiSqSurvival c ≤ p} :=
    ⟨0, fun x hx => hx.1⟩
  have hinf0 : 0 ≤ chiSqISF p := chiSqISF_nonneg p hne
  have hle : chiSqSurvival (chiSqISF p) ≤ p := by
    by_contra hgt
    push_neg at hgt
    have hcont := chiSqSurvival_continuous.continuousAt (x := chiSqISF p)
    rw [Metric.continuousAt_iff] at hcont
    obtain ⟨δ, hδ, hball⟩ := hcont (chiSqSurvival (chiSqISF p) - p) (by linarith)
    have hlt : chiSqISF p < chiSqISF p + δ := by linarith
    obtain ⟨c, hcS, hclt⟩ := (csInf_lt_iff hbdd hneS).mp hlt
    have hci : chiSqISF p ≤ c := csInf_le hbdd hcS
    have hdist : dist c (chiSqISF p) < δ := by
      rw [Real.dist_eq, abs_of_nonneg (by linarith)]
      linarith
    have := hball hdist
    rw [Real.dist_eq, abs_lt] at this
    have : p < chiSqSurvival c := by linarith
    exact absurd hcS.2 (not_le.mpr this)
  have hge : p ≤ chiSqSurvival (chiSqISF p) := by
    rcases eq_or_lt_of_le hinf0 with heq | hpos
    · rw [← heq, chiSqSurvival_zero]
      exact h1
    · by_contra hlt
      push_neg at hlt
      have hcont := chiSqSurvival_continuous.continuousAt (x := chiSqISF p)
      rw [Metric.continuousAt_iff] at hcont
      obtain ⟨δ, hδ, hball⟩ := hcont (p - chiSqSurvival (chiSqISF p)) (by linarith)
      have hc1 : 0 ≤ max (chiSqISF p - δ/2) (chiSqISF p / 2) := le_max_of_le_right (by linarith)
      have hc2 : max (chiSqISF p - δ/2) (chiSqISF p / 2) < chiSqISF p :=
        max_lt (by linarith) (by linarith)
      have hdist : dist (max (chiSqISF p - δ/2) (chiSqISF p / 2)) (chiSqISF p) < δ := by
        rw [Real.dist_eq, abs_of_nonpos (by linarith)]
        have := le_max_left (chiSqISF p - δ/2) (chiSqISF p / 2)
        linarith
      have hb := hball hdist
      rw [Real.dist_eq, abs_lt] at hb
      have hcin : max (chiSqISF p - δ/2) (chiSqISF p / 2) ∈
          {c : ℝ | 0 ≤ c ∧ chiSqSurvival c ≤ p} := by
        refine ⟨hc1, ?_⟩
        linarith [hb.2]
      have := csInf_le hbdd hcin
      have hlt2 : chiSqISF p ≤ max (chiSqISF p - δ/2) (chiSqISF p / 2) := this
      linarith
  linarith

lemma chiSqISF_strictAntiOn : StrictAntiOn chiSqISF (Set.Ioc 0 1) := by
  intro a ha b hb hab
  have hsa := chiSqSurvival_chiSqISF ha.1 ha.2
  have hsb := chiSqSurvival_chiSqISF hb.1 hb.2
  by_contra hge
  push_neg at hge
  have := chiSqSurvival_antitone hge
  rw [hsa, hsb] at this
  linarith

lemma reduceOption_map_some (xs : List ℝ) : (xs.map some).reduceOption = xs := by
  induction xs with
  | nil => rfl
  | cons x xs ih => rw [List.map_cons, List.reduceOption_cons_of_some, ih]

/-- C8: the weight numerator is `max(0, meanChiSquare - 1)`; the mean
chi-square is the arithmetic mean of the per-record chi-square values (over
the present values); when the `CHI2` column is absent each record's
chi-square is derived from its P-value by the inverse survival function of
the chi-square distribution with one degree of freedom, which satisfies
`P(X > chiSqISF p) = p` on (0, 1] and is strictly decreasing there. -/
theorem c8_weight_from_isf :
    (∀ (f : Frame) (p_col : String) (m : ℝ), meanChi2 f p_col = some m →
      weightNumerator f p_col = max 0 (m - 1))
    ∧ (∀ (f : Frame) (p_col : String) (xs : List ℝ), chi2Col f p_col = xs.map some →
        xs ≠ [] → meanChi2 f p_col = some (xs.sum / xs.length))
    ∧ (∀ (f : Frame) (p_col : String), "CHI2" ∉ f.cols →
        chi2Col f p_col = ((f.getCol p_col).getD []).map
          (fun v => (Val.toNum v).map fun q => chiSqISF (q : ℝ)))
    ∧ (∀ p : ℝ, 0 < p → p ≤ 1 → chiSqSurvival (chiSqISF p) = p)
    ∧ StrictAntiOn chiSqISF (Set.Ioc 0 1) := by
  refine ⟨?_, ?_, ?_, fun p h0 h1 => chiSqSurvival_chiSqISF h0 h1, chiSqISF_strictAntiOn⟩
  · intro f p_col m hm
    unfold weightNumerator
    rw [hm]
    rfl
  · intro f p_col xs hcol hne
    unfold meanChi2 skipnaMean
    rw [hcol, reduceOption_map_some]
    cases xs with
    | nil => exact absurd rfl hne
    | cons x xs => rfl
  · intro f p_col h
    unfold chi2Col
    rw [if_neg h]

/-- C8 witness: at the concrete trait `fB` the supplied chi-square column
has mean 3 and weight numerator `max 0 (3 - 1)`; at `p = 1` the inverse
survival function satisfies its defining equation. -/
theorem c8_witness :
    meanChi2 fB "P" = some 3 ∧
    weightNumerator fB "P" = max 0 (3 - 1) ∧
    chiSqSurvival (chiSqISF 1) = 1 := by
  have hm : meanChi2 fB "P" = some 3 := by
    have hcol : chi2Col fB "P" = [((3:ℚ):ℝ), ((3:ℚ):ℝ)].map some := rfl
    have h := c8_weight_from_isf.2.1 fB "P" [((3:ℚ):ℝ), ((3:ℚ):ℝ)] hcol (by simp)
    rw [h]
    norm_num
  exact ⟨hm, c8_weight_from_isf.1 fB "P" 3 hm,
    c8_weight_from_isf.2.2.2.1 1 one_pos le_rfl⟩

end CalcEScore
